import Mathlib

/-!
First-fit bin packer: embedding and verified properties

Shallow embedding of `binpacker.go` and `observer.go` (package `packer`).

Modelling conventions
* A Go `int` is a 64-bit integer in two-complement form.  Values are `Int`s and the sums the
  source computes on sizes (`Bin.hasRoom`, `Bin.Add`, `BinPacker.Size`) are reduced by
  `wrap`, so they wrap around as in Go.  The id counter is raised by one per bin appended;
  a slice holds fewer than `2^63` bins, so `p.count++` is `+ 1`.
* `Block.Size` is a nullary function in the source; it is called several times per
  placement and is represented here by the integer it returns.
* A `*Block[T]` argument that may be `nil` is an `Option (Block T)`.
* Bins are held by pointer in the slice of the packer.  The bin list of the packer is the
  heap of bins: a direct call of `Bin.Add` through such a pointer is an update of the
  list at the index of the pointer (`BinPacker.binAdd`).
* An event carries a pointer to a bin; the event value of the model holds the bin as a
  listener sees it through that pointer when `Update` is called.
* A listener is an interface value (`Observer`): a dynamic type and a value.  `==` on two
  of them panics when their common dynamic type is not comparable; a panic is `none`.
* A mutating operation returns, next to the new state and its Go return value, the
  ordered list of `Update` calls it made (`Outcome.calls`).
* `ConcreteSubject.Notify`, `BinPacker.createBin` and `BinPacker.Add` are the source
  functions for listeners whose `Update` only reads the event.
  `ConcreteSubject.NotifyLive`, `BinPacker.createBinLive` and `BinPacker.AddLive` are the
  same functions for listeners whose `Update` acts: it may take listeners off the notifier
  that is dispatching, which shifts the backing array the `range` loop of `Notify` is
  reading, and it may add to the bin of the event through the pointer the event hands
  over.  For listeners that only read the two agree (`notifyLive_inert`, `addLive_inert`,
  `createBinLive_inert`).
-/

namespace Packer

/-- Go `Block[T]`: a payload with its size. -/
structure Block (T : Type) where
  Size : Int
  Data : T
deriving DecidableEq, Repr

/-- Go `EventType`. -/
inductive EventType where
  | BinCreated
  | BlockAdded
  | BlockIgnored
deriving DecidableEq, Repr

/-- Go `Bin[T]`. -/
structure Bin (T : Type) where
  limit : Int
  size : Int
  id : Int
  items : List (Block T)
deriving DecidableEq, Repr

/-- Go `BinEvent[T]` with its three implementations. -/
inductive BinEvent (T : Type) where
  | BinCreatedEvent (bin : Bin T)
  | BlockAddedEvent (bin : Bin T) (block : Block T)
  | BlockIgnoredEvent (bin : Bin T) (block : Block T)
deriving DecidableEq, Repr

/-- Method `Type()` of the three event structs. -/
def BinEvent.eventType {T : Type} : BinEvent T → EventType
  | .BinCreatedEvent _ => .BinCreated
  | .BlockAddedEvent _ _ => .BlockAdded
  | .BlockIgnoredEvent _ _ => .BlockIgnored

/-- Method `Bin()` of the three event structs. -/
def BinEvent.Bin {T : Type} : BinEvent T → Bin T
  | .BinCreatedEvent b => b
  | .BlockAddedEvent b _ => b
  | .BlockIgnoredEvent b _ => b

/-- The values built by `errors.New` in `binpacker.go`. -/
inductive PackError where
  | sizeLimit
  | maxSize
  | nilItem
  | itemTooLarge
deriving DecidableEq, Repr

/-- The text given to `errors.New` for each error. -/
def PackError.message : PackError → String
  | .sizeLimit => "size limit cannot be < 1"
  | .maxSize => "maxSize must be > 0"
  | .nilItem => "item cannot be nil"
  | .itemTooLarge => "item too large for a new bin"

/-- The value of a Go `int` expression whose mathematical value is `x`: the integer in
`[-2^63, 2^63)` congruent to `x` modulo `2^64` (64-bit, two-complement form, the `int` of the
64-bit platforms). -/
def wrap (x : Int) : Int :=
  (x + 9223372036854775808) % 18446744073709551616 - 9223372036854775808

/-- Holds when `x` is a value of a Go `int`: `-2^63 <= x <= 2^63 - 1`. -/
abbrev isInt64 (x : Int) : Prop :=
  -9223372036854775808 ≤ x ∧ x ≤ 9223372036854775807

/-- Go `Bin.hasRoom`: `bin.size+item.Size() <= bin.limit`, the sum being a Go `int`. -/
def Bin.hasRoom {T : Type} (bin : Bin T) (item : Block T) : Bool :=
  decide (wrap (bin.size + item.Size) ≤ bin.limit)

/-- Go `Bin.Add`: the bin after the call and the returned boolean. -/
def Bin.Add {T : Type} (bin : Bin T) (item : Block T) : Bin T × Bool :=
  if bin.hasRoom item then
    ({ bin with items := bin.items ++ [item], size := wrap (bin.size + item.Size) }, true)
  else
    (bin, false)

/-- Go `Bin.Size`. -/
def Bin.Size {T : Type} (bin : Bin T) : Int := bin.size

/-- Go `NewBin`. -/
def NewBin {T : Type} (sizeLimit : Int) (id : Int) : Except PackError (Bin T) :=
  if sizeLimit < 1 then .error .sizeLimit
  else .ok { id := id, limit := sizeLimit, size := 0, items := [] }

/-- The dynamic type of an interface value, as far as `==` needs it: a pointer type such as
`*testObserver` or `*BinEventLogger[T]`, whose values are comparable, or a type whose values
are not (a func type, a struct holding a slice, a map or a func). -/
inductive DynType where
  | pointer (t : Nat)
  | uncomparable (t : Nat)
deriving DecidableEq, Repr

/-- An `Observer[T]` interface value: its dynamic type and its dynamic value (the address,
for a pointer). -/
structure Observer where
  dynType : DynType
  ident : Nat
deriving DecidableEq, Repr

/-- The listener written `n` is the pointer number `n` of the first pointer type, as the
listeners of the tests are. -/
instance (n : Nat) : OfNat Observer n := ⟨⟨.pointer 0, n⟩⟩

/-- Go `a == b` on interface values: false for different dynamic types, the comparison of
the values for one comparable dynamic type, a run-time panic (`none`) for one dynamic type
that is not comparable. -/
def Observer.same (a b : Observer) : Option Bool :=
  if a.dynType = b.dynType then
    match a.dynType with
    | .pointer _ => some (decide (a.ident = b.ident))
    | .uncomparable _ => none
  else some false

/-- Go `ConcreteSubject[T]`. -/
structure ConcreteSubject where
  observers : List Observer
deriving DecidableEq, Repr

/-- Go `ConcreteSubject.Register`. -/
def ConcreteSubject.Register (s : ConcreteSubject) (o : Observer) : ConcreteSubject :=
  { s with observers := s.observers ++ [o] }

/-- Go `ConcreteSubject.Attach`. -/
def ConcreteSubject.Attach (s : ConcreteSubject) (observer : Observer) : ConcreteSubject :=
  { s with observers := s.observers ++ [observer] }

/-- The search of the `range` loops of `Deregister` and `Detach`: the index of the first
listener `observer` with `o == observer`, if any, before they `break`; `none` when a
comparison panics. -/
def ConcreteSubject.firstMatch (o : Observer) : List Observer → Option (Option Nat)
  | [] => some none
  | observer :: rest =>
    match Observer.same o observer with
    | none => none
    | some true => some (some 0)
    | some false => (ConcreteSubject.firstMatch o rest).map (fun r => r.map (fun i => i + 1))

/-- Go `ConcreteSubject.Deregister`: `append(s.observers[:i], s.observers[i+1:]...)` at the
first match, nothing without one; `none` when a comparison panics. -/
def ConcreteSubject.Deregister (s : ConcreteSubject) (o : Observer) : Option ConcreteSubject :=
  match ConcreteSubject.firstMatch o s.observers with
  | none => none
  | some none => some s
  | some (some i) => some { s with observers := s.observers.take i ++ s.observers.drop (i + 1) }

/-- Go `ConcreteSubject.Detach`. -/
def ConcreteSubject.Detach (s : ConcreteSubject) (observer : Observer) :
    Option ConcreteSubject :=
  match ConcreteSubject.firstMatch observer s.observers with
  | none => none
  | some none => some s
  | some (some i) => some { s with observers := s.observers.take i ++ s.observers.drop (i + 1) }

/-- Go `ConcreteSubject.Notify` for listeners whose `Update` only reads the event: the
`Update` calls made, in order, each as the pair of the listener called and the event passed.
`ConcreteSubject.NotifyLive` is the dispatch for listeners that act. -/
def ConcreteSubject.Notify {T : Type} (s : ConcreteSubject) (event : BinEvent T) :
    List (Observer × BinEvent T) :=
  s.observers.map (fun observer => (observer, event))

/-- Go `BinPacker[T]`. -/
structure BinPacker (T : Type) where
  max : Int
  bins : List (Bin T)
  count : Int
  observers : ConcreteSubject
deriving DecidableEq, Repr

/-- What a mutating method of the packer leaves behind: the packer after the call, the
`Update` calls made during the call, and the returned value. -/
structure Outcome (T : Type) (α : Type) where
  packer : BinPacker T
  calls : List (Observer × BinEvent T)
  ret : α

/-- Go `BinPacker.Size`. -/
def BinPacker.Size {T : Type} (p : BinPacker T) : Int :=
  p.bins.foldl (fun total bin => wrap (total + bin.size)) 0

/-- Go `BinPacker.createBin`; the returned bin is the last one of the new bin list. -/
def BinPacker.createBin {T : Type} (p : BinPacker T) : Outcome T (Except PackError (Bin T)) :=
  match NewBin p.max p.count with
  | .error err => ⟨p, [], .error err⟩
  | .ok bin =>
    let p1 : BinPacker T := { p with count := p.count + 1, bins := p.bins ++ [bin] }
    ⟨p1, p1.observers.Notify (.BinCreatedEvent bin), .ok bin⟩

/-- Go `BinPacker.Max`. -/
def BinPacker.Max {T : Type} (p : BinPacker T) : Int := p.max

/-- Go `BinPacker.Bins`. -/
def BinPacker.Bins {T : Type} (p : BinPacker T) : List (Bin T) := p.bins

/-- Go `NewPacker`: the returned struct literal is `BinPacker[T]{}`, all fields zero. -/
def NewPacker {T : Type} (maxSize : Int) : Except PackError (BinPacker T) :=
  if maxSize < 1 then .error .maxSize
  else .ok { max := 0, bins := [], count := 0, observers := ⟨[]⟩ }

/-- The `for _, bin := range p.bins` loop of `BinPacker.Add`: calls `bin.Add(item)` on
each bin in order and stops at the first success.  Returns the bins after the loop and
`targetBin` (`none` when `added` is still false). -/
def BinPacker.addLoop {T : Type} (item : Block T) : List (Bin T) → List (Bin T) × Option (Bin T)
  | [] => ([], none)
  | bin :: rest =>
    match bin.Add item with
    | (bin1, true) => (bin1 :: rest, some bin1)
    | (bin1, false) =>
      match BinPacker.addLoop item rest with
      | (rest1, target) => (bin1 :: rest1, target)

/-- Go `BinPacker.Add`; the returned `error` is `none` for the `nil` of Go. -/
def BinPacker.Add {T : Type} (p : BinPacker T) (item : Option (Block T)) :
    Outcome T (Option PackError) :=
  match item with
  | none => ⟨p, [], some .nilItem⟩
  | some item =>
    match BinPacker.addLoop item p.bins with
    | (bins1, some targetBin) =>
      let p1 : BinPacker T := { p with bins := bins1 }
      ⟨p1, p1.observers.Notify (.BlockAddedEvent targetBin item), none⟩
    | (bins1, none) =>
      match NewBin p.max p.count with
      | .error err => ⟨{ p with bins := bins1 }, [], some err⟩
      | .ok newBin =>
        match newBin.Add item with
        | (targetBin, false) =>
          ⟨{ p with bins := bins1 ++ [targetBin], count := p.count + 1 }, [],
            some .itemTooLarge⟩
        | (targetBin, true) =>
          let p1 : BinPacker T := { p with bins := bins1 ++ [targetBin], count := p.count + 1 }
          ⟨p1, p1.observers.Notify (.BinCreatedEvent targetBin) ++
                p1.observers.Notify (.BlockAddedEvent targetBin item), none⟩

/-- A direct call `bin.Add(item)` on the bin at index `i` of the bin list of the packer, through
the pointer handed out by `createBin` or `Bins`.  No bin at that index: nothing to call. -/
def BinPacker.binAdd {T : Type} (p : BinPacker T) (i : Nat) (item : Block T) :
    BinPacker T × Bool :=
  match p.bins[i]? with
  | none => (p, false)
  | some bin => ({ p with bins := p.bins.set i (bin.Add item).1 }, (bin.Add item).2)

/-- One call made by a client of the packer. -/
inductive Op (T : Type) where
  | add (item : Option (Block T))
  | createBin
  | binAdd (i : Nat) (item : Block T)
deriving DecidableEq, Repr

/-- The packer after one client call, with the `Update` calls the call made. -/
def step {T : Type} (p : BinPacker T) : Op T → BinPacker T × List (Observer × BinEvent T)
  | .add item => ((p.Add item).packer, (p.Add item).calls)
  | .createBin => (p.createBin.packer, p.createBin.calls)
  | .binAdd i item => ((p.binAdd i item).1, [])

/-- The packer after a sequence of client calls, with all `Update` calls made, in order. -/
def run {T : Type} (p : BinPacker T) : List (Op T) → BinPacker T × List (Observer × BinEvent T)
  | [] => (p, [])
  | op :: ops =>
    let r := step p op
    let rs := run r.1 ops
    (rs.1, r.2 ++ rs.2)

/-- An empty packer of capacity `max` with the given listeners, as the tests build it:
`BinPacker{max: max, count: 0}` followed by `Attach` calls. -/
def emptyPacker (T : Type) (max : Int) (observers : List Observer) : BinPacker T :=
  { max := max, bins := [], count := 0, observers := ⟨observers⟩ }

/-- The counter struct of `testObserver` in `binpacker_test.go`. -/
structure Counter where
  created : Int
  added : Int
  ignored : Int
deriving DecidableEq, Repr

/-- Go `testObserver.Update`. -/
def testObserver.Update {T : Type} (c : Counter) (event : BinEvent T) : Counter :=
  match event.eventType with
  | .BinCreated => { c with created := c.created + 1 }
  | .BlockAdded => { c with added := c.added + 1 }
  | .BlockIgnored => { c with ignored := c.ignored + 1 }

/-- The events passed to listener `o`, in order, among a list of `Update` calls. -/
def deliveredTo {T : Type} (o : Observer) (calls : List (Observer × BinEvent T)) :
    List (BinEvent T) :=
  (calls.filter (fun c => c.1 = o)).map (fun c => c.2)

/-- The counter of a `testObserver` registered as listener `o` after the given calls. -/
def testObserver.counterAfter {T : Type} (o : Observer)
    (calls : List (Observer × BinEvent T)) : Counter :=
  (deliveredTo o calls).foldl testObserver.Update ⟨0, 0, 0⟩

/-- The sum of `Size()` over a list of blocks. -/
def sumSizes {T : Type} (items : List (Block T)) : Int :=
  (items.map (fun item => item.Size)).sum

/-- Go `math.MaxInt64`, the largest `int`. -/
def MaxInt64 : Int := 9223372036854775807

/-- Go `math.MinInt64`, the smallest `int`. -/
def MinInt64 : Int := -9223372036854775808

/-- The block of the given size used in scenarios. -/
def blk (n : Int) : Block String := ⟨n, "Block"⟩

/-- What `BinEventLogger.Update` prints of an event: its type, `event.Bin().id`, and the
`Size()` of its block when it has one. -/
def BinEvent.summary {T : Type} : BinEvent T → EventType × Int × Option Int
  | .BinCreatedEvent b => (.BinCreated, b.id, none)
  | .BlockAddedEvent b block => (.BlockAdded, b.id, some block.Size)
  | .BlockIgnoredEvent b block => (.BlockIgnored, b.id, some block.Size)

/-- Holds when every item handed over by the call has a size `s` with
`0 <= s <= MaxInt64 - max`, so that no sum of it with an occupied size of at most `max`
leaves the range of a Go `int`. -/
def Op.sizeWithin {T : Type} (max : Int) : Op T → Prop
  | .add (some item) => 0 ≤ item.Size ∧ item.Size + max ≤ 9223372036854775807
  | .add none => True
  | .createBin => True
  | .binAdd _ item => 0 ≤ item.Size ∧ item.Size + max ≤ 9223372036854775807

/-- The notifier after a sequence of registrations on `s`, each made by `Register` (flag
true) or by `Attach` (flag false). -/
def subscribe (s : ConcreteSubject) : List (Bool × Observer) → ConcreteSubject
  | [] => s
  | (true, o) :: rest => subscribe (s.Register o) rest
  | (false, o) :: rest => subscribe (s.Attach o) rest

/-- Go `BinEventLogger[T]` of `example_observer_test.go`. -/
structure BinEventLogger where
  Name : String
deriving DecidableEq, Repr

/-- Go `BinEventLogger.Update`: the lines it prints.  The type assertion of the `BlockAdded`
and `BlockIgnored` cases is the inner match. -/
def BinEventLogger.Update {T : Type} (l : BinEventLogger) (event : BinEvent T) : List String :=
  match event.eventType with
  | .BinCreated => ["[" ++ l.Name ++ "] Bin created: ID=" ++ toString event.Bin.id]
  | .BlockAdded =>
    match event with
    | .BlockAddedEvent _ block =>
      ["[" ++ l.Name ++ "] Block added to bin " ++ toString event.Bin.id ++ ", size=" ++
        toString block.Size]
    | _ => []
  | .BlockIgnored =>
    match event with
    | .BlockIgnoredEvent _ block =>
      ["[" ++ l.Name ++ "] Block ignored for bin " ++ toString event.Bin.id ++ ", size=" ++
        toString block.Size]
    | _ => []

/-- The two loggers of `ExampleBinPacker_Add`: listener 1 is `Logger1`, listener 2 is
`Logger2`. -/
def exampleLogger (o : Observer) : BinEventLogger :=
  if o = 1 then ⟨"Logger1"⟩ else ⟨"Logger2"⟩

/-- The lines printed when the given `Update` calls reach the loggers of the example. -/
def printed {T : Type} (calls : List (Observer × BinEvent T)) : List String :=
  calls.flatMap (fun c => (exampleLogger c.1).Update c.2)

/-- What a listener may do in an `Update` call beyond reading the event: take a listener off
the notifier that is dispatching (`Detach` or `Deregister`, itself included), or add an item
to the bin of the event through the pointer the event hands over (`event.Bin().Add(item)`,
`Bin.Add` being exported). -/
inductive Action (T : Type) where
  | detach (o : Observer)
  | binAdd (item : Block T)
deriving DecidableEq, Repr

/-- The `Update` methods of the listeners: what a listener does when it is called with an
event, given the `Update` calls made before (they stand for the state the listeners have
built up, so a listener may act differently from one call to the next). -/
abbrev Behaviour (T : Type) :=
  List (Observer × BinEvent T) → Observer → BinEvent T → List (Action T)

/-- The `Update` of listeners that only read the event. -/
def inert (T : Type) : Behaviour T := fun _ _ _ => []

/-- A Go event value as `Add` and `createBin` build it: its struct type, the pointer to its
bin (the index of the bin in the bin list) and its block. -/
inductive Pending (T : Type) where
  | created (bin : Nat)
  | added (bin : Nat) (block : Block T)
  | ignored (bin : Nat) (block : Block T)
deriving DecidableEq, Repr

/-- The bin pointer of a Go event value. -/
def Pending.bin {T : Type} : Pending T → Nat
  | .created i => i
  | .added i _ => i
  | .ignored i _ => i

/-- The event as a listener sees it when the bin behind the pointer is in state `b`. -/
def Pending.seen {T : Type} (d : Pending T) (b : Bin T) : BinEvent T :=
  match d with
  | .created _ => .BinCreatedEvent b
  | .added _ block => .BlockAddedEvent b block
  | .ignored _ block => .BlockIgnoredEvent b block

/-- One action of a listener during the dispatch of an event on bin `bin`.  The state is
the packer and the backing array of the listener slice as the running `range` loop of
`Notify` holds it (its first `len` slots, `len` taken when the loop started): `Detach`
shifts the listeners after the match one slot down inside that array and leaves the last
slot as it was.  A `Detach` that panics is a failing listener and leaves the state. -/
def applyAction {T : Type} (bin : Nat) (st : BinPacker T × List Observer) :
    Action T → BinPacker T × List Observer
  | .detach o =>
    match st.1.observers.Detach o with
    | some s => ({ st.1 with observers := s }, s.observers ++ st.2.drop s.observers.length)
    | none => st
  | .binAdd item => ((st.1.binAdd bin item).1, st.2)

/-- The `for _, observer := range s.observers` loop of `Notify` from index `i` with `k`
iterations left, for listeners that act: the listener called is the one found in slot `i`
of the backing array at that moment, the event it sees shows the bin as it is at that
moment, and its actions are applied before the next iteration.  `past` is the `Update` calls
made so far. -/
def notifyLoop {T : Type} (react : Behaviour T) (d : Pending T) :
    Nat → Nat → List (Observer × BinEvent T) → BinPacker T × List Observer →
      BinPacker T × List (Observer × BinEvent T)
  | 0, _, _, st => (st.1, [])
  | k + 1, i, past, st =>
    match st.2[i]?, st.1.bins[d.bin]? with
    | some o, some b =>
      let st1 := (react past o (d.seen b)).foldl (applyAction d.bin) st
      let r := notifyLoop react d k (i + 1) (past ++ [(o, d.seen b)]) st1
      (r.1, (o, d.seen b) :: r.2)
    | _, _ => (st.1, [])

/-- Go `ConcreteSubject.Notify` on the notifier of packer `w`, for listeners that act: the
packer after the dispatch and the `Update` calls made.  The `range` expression is evaluated
once, so the number of iterations is the length of the listener list at the start.  `past`
is the `Update` calls made before this dispatch. -/
def ConcreteSubject.NotifyLive {T : Type} (react : Behaviour T)
    (past : List (Observer × BinEvent T)) (w : BinPacker T) (d : Pending T) :
    BinPacker T × List (Observer × BinEvent T) :=
  notifyLoop react d w.observers.observers.length 0 past (w, w.observers.observers)

/-- The loop of `BinPacker.Add` with `targetBin` as a pointer: the bins after the loop and
the index of the bin that took the item. -/
def BinPacker.scan {T : Type} (item : Block T) : List (Bin T) → List (Bin T) × Option Nat
  | [] => ([], none)
  | bin :: rest =>
    match bin.Add item with
    | (bin1, true) => (bin1 :: rest, some 0)
    | (bin1, false) =>
      match BinPacker.scan item rest with
      | (rest1, target) => (bin1 :: rest1, target.map (fun i => i + 1))

/-- Go `BinPacker.createBin` for listeners that act; `past` is the `Update` calls made before
the call.  The returned pointer is to the last bin of the new bin list; the value given is
that bin as it was created. -/
def BinPacker.createBinLive {T : Type} (react : Behaviour T)
    (past : List (Observer × BinEvent T)) (p : BinPacker T) :
    Outcome T (Except PackError (Bin T)) :=
  match NewBin p.max p.count with
  | .error err => ⟨p, [], .error err⟩
  | .ok bin =>
    let p1 : BinPacker T := { p with count := p.count + 1, bins := p.bins ++ [bin] }
    let r := ConcreteSubject.NotifyLive react past p1 (.created p.bins.length)
    ⟨r.1, r.2, .ok bin⟩

/-- Go `BinPacker.Add` for listeners that act; `past` is the `Update` calls made before the
call. -/
def BinPacker.AddLive {T : Type} (react : Behaviour T) (past : List (Observer × BinEvent T))
    (p : BinPacker T) (item : Option (Block T)) : Outcome T (Option PackError) :=
  match item with
  | none => ⟨p, [], some .nilItem⟩
  | some item =>
    match BinPacker.scan item p.bins with
    | (bins1, some target) =>
      let p1 : BinPacker T := { p with bins := bins1 }
      let r := ConcreteSubject.NotifyLive react past p1 (.added target item)
      ⟨r.1, r.2, none⟩
    | (bins1, none) =>
      match NewBin p.max p.count with
      | .error err => ⟨{ p with bins := bins1 }, [], some err⟩
      | .ok newBin =>
        match newBin.Add item with
        | (targetBin, false) =>
          ⟨{ p with bins := bins1 ++ [targetBin], count := p.count + 1 }, [],
            some .itemTooLarge⟩
        | (targetBin, true) =>
          let p1 : BinPacker T := { p with bins := bins1 ++ [targetBin], count := p.count + 1 }
          let r1 := ConcreteSubject.NotifyLive react past p1 (.created bins1.length)
          let r2 := ConcreteSubject.NotifyLive react (past ++ r1.2) r1.1
            (.added bins1.length item)
          ⟨r2.1, r1.2 ++ r2.2, none⟩

/-- A listener that takes itself off the notifier when it is called: listener 1 does, the
others only read. -/
def selfDetaching : Behaviour String :=
  fun _ o _ => if o = 1 then [.detach 1] else []

/-- A listener that, on a `BlockAdded` event, adds a block of size 50 to the bin of the
event; on other events it only reads. -/
def binFilling : Behaviour String :=
  fun _ _ event =>
    match event with
    | .BlockAddedEvent _ _ => [.binAdd (blk 50)]
    | _ => []

/-! ## Lemmas on 64-bit arithmetic -/

theorem wrap_of_isInt64 (x : Int) (h : isInt64 x) : wrap x = x := by
  unfold isInt64 at h
  unfold wrap
  omega

theorem wrap_wrap_add (a b : Int) : wrap (wrap a + b) = wrap (a + b) := by
  unfold wrap
  omega

theorem Bin.Add_of_fits {T : Type} (bin : Bin T) (item : Block T)
    (h : wrap (bin.size + item.Size) ≤ bin.limit) :
    bin.Add item =
      ({ bin with items := bin.items ++ [item], size := wrap (bin.size + item.Size) }, true) := by
  simp [Bin.Add, Bin.hasRoom, h]

theorem Bin.Add_of_not_fits {T : Type} (bin : Bin T) (item : Block T)
    (h : ¬ wrap (bin.size + item.Size) ≤ bin.limit) : bin.Add item = (bin, false) := by
  simp [Bin.Add, Bin.hasRoom, h]

theorem addLoop_none_fits {T : Type} (item : Block T) (bins : List (Bin T))
    (h : ∀ b ∈ bins, ¬ wrap (b.size + item.Size) ≤ b.limit) :
    BinPacker.addLoop item bins = (bins, none) := by
  induction bins with
  | nil => rfl
  | cons b rest ih =>
    have hb : ¬ wrap (b.size + item.Size) ≤ b.limit := h b (List.mem_cons_self _ _)
    have hrest : ∀ c ∈ rest, ¬ wrap (c.size + item.Size) ≤ c.limit :=
      fun c hc => h c (List.mem_cons_of_mem _ hc)
    simp [BinPacker.addLoop, Bin.Add_of_not_fits b item hb, ih hrest]

theorem addLoop_first_fit {T : Type} (item : Block T) (bins : List (Bin T)) (i : Nat)
    (b : Bin T) (hi : bins[i]? = some b) (hfit : wrap (b.size + item.Size) ≤ b.limit)
    (hmin : ∀ (j : Nat) (c : Bin T), j < i → bins[j]? = some c →
      ¬ wrap (c.size + item.Size) ≤ c.limit) :
    BinPacker.addLoop item bins =
      (bins.set i { b with items := b.items ++ [item], size := wrap (b.size + item.Size) },
        some { b with items := b.items ++ [item], size := wrap (b.size + item.Size) }) := by
  induction bins generalizing i with
  | nil => simp at hi
  | cons a rest ih =>
    cases i with
    | zero =>
      simp at hi
      subst hi
      simp [BinPacker.addLoop, Bin.Add_of_fits a item hfit]
    | succ k =>
      simp at hi
      have ha : ¬ wrap (a.size + item.Size) ≤ a.limit := hmin 0 a (Nat.succ_pos k) (by simp)
      have hrest : ∀ (j : Nat) (c : Bin T), j < k → rest[j]? = some c →
          ¬ wrap (c.size + item.Size) ≤ c.limit :=
        fun j c hj hc => hmin (j + 1) c (Nat.succ_lt_succ hj) (by simpa using hc)
      simp [BinPacker.addLoop, Bin.Add_of_not_fits a item ha, ih k hi hrest]

theorem exists_first_fit {T : Type} (item : Block T) (bins : List (Bin T))
    (h : ∃ b ∈ bins, wrap (b.size + item.Size) ≤ b.limit) :
    ∃ (i : Nat) (b : Bin T), bins[i]? = some b ∧ wrap (b.size + item.Size) ≤ b.limit ∧
      ∀ (j : Nat) (c : Bin T), j < i → bins[j]? = some c → ¬ wrap (c.size + item.Size) ≤ c.limit := by
  induction bins with
  | nil => simp at h
  | cons a rest ih =>
    by_cases ha : wrap (a.size + item.Size) ≤ a.limit
    · exact ⟨0, a, by simp, ha, fun j c hj _ => absurd hj (Nat.not_lt_zero j)⟩
    · have hrest : ∃ b ∈ rest, wrap (b.size + item.Size) ≤ b.limit := by
        obtain ⟨b, hb, hfit⟩ := h
        rcases List.mem_cons.mp hb with rfl | hb
        · exact absurd hfit ha
        · exact ⟨b, hb, hfit⟩
      obtain ⟨i, b, hi, hfit, hmin⟩ := ih hrest
      refine ⟨i + 1, b, by simpa using hi, hfit, ?_⟩
      intro j c hj hc
      cases j with
      | zero =>
        simp at hc
        subst hc
        exact ha
      | succ k =>
        exact hmin k c (Nat.lt_of_succ_lt_succ hj) (by simpa using hc)

/-- The scan loop either finds no bin with room and changes nothing, or places the item in
the first bin with room. -/
theorem addLoop_cases {T : Type} (item : Block T) (bins : List (Bin T)) :
    ((∀ b ∈ bins, ¬ wrap (b.size + item.Size) ≤ b.limit) ∧
      BinPacker.addLoop item bins = (bins, none)) ∨
    (∃ (i : Nat) (b : Bin T), bins[i]? = some b ∧ wrap (b.size + item.Size) ≤ b.limit ∧
      BinPacker.addLoop item bins =
        (bins.set i { b with items := b.items ++ [item], size := wrap (b.size + item.Size) },
          some { b with items := b.items ++ [item], size := wrap (b.size + item.Size) })) := by
  by_cases h : ∃ b ∈ bins, wrap (b.size + item.Size) ≤ b.limit
  · obtain ⟨i, b, hi, hfit, hmin⟩ := exists_first_fit item bins h
    exact Or.inr ⟨i, b, hi, hfit, addLoop_first_fit item bins i b hi hfit hmin⟩
  · have hnone : ∀ b ∈ bins, ¬ wrap (b.size + item.Size) ≤ b.limit :=
      fun b hb hfit => h ⟨b, hb, hfit⟩
    exact Or.inl ⟨hnone, addLoop_none_fits item bins hnone⟩

/-! ## Properties of bins kept by every client call -/

theorem addLoop_preserves {T : Type} (P : Bin T → Prop) (item : Block T)
    (hadd : ∀ b, P b → P (b.Add item).1) (bins : List (Bin T)) (h : ∀ b ∈ bins, P b) :
    ∀ b ∈ (BinPacker.addLoop item bins).1, P b := by
  rcases addLoop_cases item bins with ⟨_, hloop⟩ | ⟨i, c, hi, hfit, hloop⟩
  · rw [hloop]
    exact h
  · rw [hloop]
    intro b hb
    rcases List.mem_or_eq_of_mem_set hb with hb | hb
    · exact h b hb
    · have hc : P c := h c (List.getElem?_mem hi)
      have := hadd c hc
      rw [Bin.Add_of_fits c item hfit] at this
      rw [hb]
      exact this

theorem add_preserves {T : Type} (P : Bin T → Prop) (p : BinPacker T) (item : Block T)
    (hadd : ∀ b, P b → P (b.Add item).1)
    (hnew : ¬ p.max < 1 → P { limit := p.max, size := 0, id := p.count, items := [] })
    (h : ∀ b ∈ p.bins, P b) :
    ∀ b ∈ (p.Add (some item)).packer.bins, P b := by
  have hloop := addLoop_preserves P item hadd p.bins h
  cases hL : BinPacker.addLoop item p.bins with
  | mk bins1 target =>
    rw [hL] at hloop
    cases target with
    | some t => simpa [BinPacker.Add, hL] using hloop
    | none =>
      by_cases hm : p.max < 1
      · simpa [BinPacker.Add, hL, NewBin, hm] using hloop
      · have hnb := hadd _ (hnew hm)
        cases hA : Bin.Add { limit := p.max, size := 0, id := p.count, items := [] } item with
        | mk tb flag =>
          rw [hA] at hnb
          intro b hb
          cases flag <;>
          · simp only [BinPacker.Add, hL, NewBin, hm, if_false, hA, List.mem_append,
              List.mem_singleton] at hb
            rcases hb with hb | hb
            · exact hloop b hb
            · rw [hb]
              exact hnb

theorem add_max {T : Type} (p : BinPacker T) (item : Option (Block T)) :
    (p.Add item).packer.max = p.max := by
  cases item with
  | none => rfl
  | some item =>
    cases hL : BinPacker.addLoop item p.bins with
    | mk bins1 target =>
      cases target with
      | some t => simp [BinPacker.Add, hL]
      | none =>
        by_cases hm : p.max < 1
        · simp [BinPacker.Add, hL, NewBin, hm]
        · cases hA : Bin.Add { limit := p.max, size := 0, id := p.count, items := [] } item with
          | mk tb flag => cases flag <;> simp [BinPacker.Add, hL, NewBin, hm, hA]

theorem createBin_preserves {T : Type} (P : Bin T → Prop) (p : BinPacker T)
    (hnew : ¬ p.max < 1 → P { limit := p.max, size := 0, id := p.count, items := [] })
    (h : ∀ b ∈ p.bins, P b) :
    ∀ b ∈ p.createBin.packer.bins, P b := by
  by_cases hm : p.max < 1
  · simpa [BinPacker.createBin, NewBin, hm] using h
  · intro b hb
    simp only [BinPacker.createBin, NewBin, hm, if_false, List.mem_append,
      List.mem_singleton] at hb
    rcases hb with hb | hb
    · exact h b hb
    · rw [hb]
      exact hnew hm

theorem createBin_max {T : Type} (p : BinPacker T) : p.createBin.packer.max = p.max := by
  by_cases hm : p.max < 1 <;> simp [BinPacker.createBin, NewBin, hm]

theorem binAdd_preserves {T : Type} (P : Bin T → Prop) (p : BinPacker T) (i : Nat)
    (item : Block T) (hadd : ∀ b, P b → P (b.Add item).1) (h : ∀ b ∈ p.bins, P b) :
    ∀ b ∈ (p.binAdd i item).1.bins, P b := by
  cases hi : p.bins[i]? with
  | none => simpa [BinPacker.binAdd, hi] using h
  | some c =>
    intro b hb
    simp only [BinPacker.binAdd, hi] at hb
    rcases List.mem_or_eq_of_mem_set hb with hb | hb
    · exact h b hb
    · rw [hb]
      exact hadd c (h c (List.getElem?_mem hi))

theorem binAdd_max {T : Type} (p : BinPacker T) (i : Nat) (item : Block T) :
    (p.binAdd i item).1.max = p.max := by
  cases hi : p.bins[i]? <;> simp [BinPacker.binAdd, hi]

/-- A property of bins that holds of a new empty bin of the capacity of the packer and that
`Bin.Add` keeps for the items the calls hand over holds of every bin after any sequence of
client calls; the capacity of the packer stays what it was. -/
theorem run_preserves {T : Type} (P : Bin T → Prop) (I : Block T → Prop) (m : Int)
    (hadd : ∀ b item, I item → P b → P (b.Add item).1)
    (hnew : ∀ id, ¬ m < 1 → P { limit := m, size := 0, id := id, items := [] })
    (ops : List (Op T))
    (hops : ∀ op ∈ ops, ∀ item, (op = .add (some item) ∨ ∃ i, op = .binAdd i item) → I item)
    (p : BinPacker T) (hmax : p.max = m) (h : ∀ b ∈ p.bins, P b) :
    (run p ops).1.max = m ∧ ∀ b ∈ (run p ops).1.bins, P b := by
  induction ops generalizing p with
  | nil => exact ⟨hmax, h⟩
  | cons op ops ih =>
    have hrest : ∀ o ∈ ops, ∀ item,
        (o = .add (some item) ∨ ∃ i, o = .binAdd i item) → I item :=
      fun o ho => hops o (List.mem_cons_of_mem _ ho)
    have hop := hops op (List.mem_cons_self _ _)
    have hstep : (step p op).1.max = m ∧ ∀ b ∈ (step p op).1.bins, P b := by
      cases op with
      | add item =>
        refine ⟨by simp [step, add_max, hmax], ?_⟩
        cases item with
        | none => simpa [step, BinPacker.Add] using h
        | some item =>
          exact add_preserves P p item (fun b => hadd b item (hop item (Or.inl rfl)))
            (by rw [hmax]; exact hnew p.count) h
      | createBin =>
        exact ⟨by simp [step, createBin_max, hmax],
          createBin_preserves P p (by rw [hmax]; exact hnew p.count) h⟩
      | binAdd i item =>
        exact ⟨by simp [step, binAdd_max, hmax],
          binAdd_preserves P p i item
            (fun b => hadd b item (hop item (Or.inr ⟨i, rfl⟩))) h⟩
    exact ih hrest (step p op).1 hstep.1 hstep.2

/-! ## Placement by `BinPacker.Add` -/

/-- C9 as stated fails: on a bin of capacity 100 holding 1, `Bin.Add` of an item of size
`MaxInt64` returns true although `1 + MaxInt64 <= 100` is false, and the size becomes
`MinInt64`: the sum wraps around. -/
theorem bin_add_accepts_on_overflow :
    (Bin.Add (⟨100, 1, 0, [blk 1]⟩ : Bin String) (blk MaxInt64)).2 = true ∧
    ¬ ((⟨100, 1, 0, [blk 1]⟩ : Bin String).size + (blk MaxInt64).Size ≤ 100) ∧
    (Bin.Add (⟨100, 1, 0, [blk 1]⟩ : Bin String) (blk MaxInt64)).1 =
      ⟨100, MinInt64, 0, [blk 1, blk MaxInt64]⟩ ∧
    MinInt64 ≠ (⟨100, 1, 0, [blk 1]⟩ : Bin String).size + (blk MaxInt64).Size := by
  decide

/-- C9 amended, contract of `Bin.Add`: for a bin and an item whose sum
`size + item.Size()` is in the range of a Go `int`, it returns true exactly when
`size + item.Size() <= limit`; then the item is appended at the end of the items and the
size grows by `item.Size()`, limit and id unchanged; when it returns false the bin is
unchanged.  Scenario: on a new bin of capacity 100 the adds of 30, 50, 40 return true, true,
false and the size ends at 80. -/
theorem bin_add_contract {T : Type} (bin : Bin T) (item : Block T)
    (hno : isInt64 (bin.size + item.Size)) :
    ((bin.Add item).2 = true ↔ bin.size + item.Size ≤ bin.limit) ∧
    ((bin.Add item).2 = true →
      (bin.Add item).1.items = bin.items ++ [item] ∧
      (bin.Add item).1.size = bin.size + item.Size ∧
      (bin.Add item).1.limit = bin.limit ∧ (bin.Add item).1.id = bin.id) ∧
    ((bin.Add item).2 = false → (bin.Add item).1 = bin) ∧
    (∃ b0 b1 b2 : Bin String, NewBin 100 0 = .ok b0 ∧
      b0.Add (blk 30) = (b1, true) ∧ b1.Add (blk 50) = (b2, true) ∧
      b2.Add (blk 40) = (b2, false) ∧ b2.Size = 80) := by
  have hw : wrap (bin.size + item.Size) = bin.size + item.Size := wrap_of_isInt64 _ hno
  refine ⟨?_, ?_, ?_, ?_⟩
  · by_cases h : bin.size + item.Size ≤ bin.limit <;> simp [Bin.Add, Bin.hasRoom, hw, h]
  · by_cases h : bin.size + item.Size ≤ bin.limit <;> simp [Bin.Add, Bin.hasRoom, hw, h]
  · by_cases h : bin.size + item.Size ≤ bin.limit <;> simp [Bin.Add, Bin.hasRoom, hw, h]
  · exact ⟨⟨100, 0, 0, []⟩, ⟨100, 30, 0, [blk 30]⟩, ⟨100, 80, 0, [blk 30, blk 50]⟩,
      rfl, by decide, by decide, by decide, by decide⟩

/-- Witness of C9 amended: a bin of capacity 100 holding 80 refuses an item of size 40. -/
theorem bin_add_contract_witness :
    isInt64 ((⟨100, 80, 0, [blk 30, blk 50]⟩ : Bin String).size + (blk 40).Size) ∧
    (Bin.Add (⟨100, 80, 0, [blk 30, blk 50]⟩ : Bin String) (blk 40)).2 = false ∧
    ((Bin.Add (⟨100, 80, 0, [blk 30, blk 50]⟩ : Bin String) (blk 40)).2 = true ↔
      (⟨100, 80, 0, [blk 30, blk 50]⟩ : Bin String).size + (blk 40).Size ≤
        (⟨100, 80, 0, [blk 30, blk 50]⟩ : Bin String).limit) :=
  ⟨by decide, by decide,
    (bin_add_contract (⟨100, 80, 0, [blk 30, blk 50]⟩ : Bin String) (blk 40) (by decide)).1⟩

/-- C10, construction fails exactly on an invalid capacity: `NewBin(capacity, id)` returns
an error if and only if `capacity < 1`, and otherwise a bin with no items, size 0, that
capacity and that id; `NewPacker(maxSize)` returns an error if and only if `maxSize < 1`. -/
theorem constructors_fail_iff_invalid_capacity {T : Type} (capacity id maxSize : Int) :
    ((∃ err, (NewBin capacity id : Except PackError (Bin T)) = .error err) ↔ capacity < 1) ∧
    ((∃ bin, (NewBin capacity id : Except PackError (Bin T)) = .ok bin) ↔ ¬ capacity < 1) ∧
    (∀ bin : Bin T, NewBin capacity id = .ok bin →
      bin.items = [] ∧ bin.size = 0 ∧ bin.limit = capacity ∧ bin.id = id) ∧
    ((∃ err, (NewPacker maxSize : Except PackError (BinPacker T)) = .error err) ↔
      maxSize < 1) := by
  refine ⟨?_, ?_, ?_, ?_⟩
  · by_cases h : capacity < 1 <;> simp [NewBin, h]
  · by_cases h : capacity < 1 <;> simp [NewBin, h]
  · intro bin hbin
    by_cases h : capacity < 1
    · simp [NewBin, h] at hbin
    · simp only [NewBin, h, if_false, Except.ok.injEq] at hbin
      subst hbin
      exact ⟨rfl, rfl, rfl, rfl⟩
  · by_cases h : maxSize < 1 <;> simp [NewPacker, h]

/-- C5 on the code: `NewPacker(100)` succeeds with an empty bin list and total size 0, but
the packer it returns has `Max() = 0`, not 100: the struct literal it returns leaves `max`
at its zero value. -/
theorem newPacker_drops_capacity :
    ∃ p : BinPacker String, NewPacker 100 = .ok p ∧ p.Max = 0 ∧ p.Max ≠ 100 ∧
      p.Bins = [] ∧ p.Size = 0 :=
  ⟨⟨0, [], 0, ⟨[]⟩⟩, rfl, by decide, by decide, by decide, by decide⟩

/-- C4 on the code: `Add` of an item of size 30 on the packer returned by `NewPacker(100)`
returns the error of `NewBin` ("size limit cannot be < 1") and leaves no bin, because the
capacity of that packer is 0. -/
theorem newPacker_then_add_fails :
    ∃ p : BinPacker String, NewPacker 100 = .ok p ∧
      (p.Add (some (blk 30))).ret = some .sizeLimit ∧
      (p.Add (some (blk 30))).packer.bins = [] ∧
      (p.Add (some (blk 30))).calls = [] :=
  ⟨⟨0, [], 0, ⟨[]⟩⟩, rfl, by decide, by decide, by decide⟩

/-! ## Invariants over sequences of calls -/

/-- C3 as stated fails: capacity 100, `Add` of 30 then of `MaxInt64`, both sizes not negative.
The second item goes into bin 0 because `30 + MaxInt64` wraps around, and bin 0 ends with
size -9223372036854775779, which is not the sum of the sizes of its two items. -/
theorem size_differs_from_sum_on_overflow :
    (1 : Int) ≤ 100 ∧ 0 ≤ (blk 30).Size ∧ 0 ≤ (blk MaxInt64).Size ∧
    (run (emptyPacker String 100 [7])
      [.add (some (blk 30)), .add (some (blk MaxInt64))]).1.bins =
      [⟨100, -9223372036854775779, 0, [blk 30, blk MaxInt64]⟩] ∧
    (-9223372036854775779 : Int) ≠ sumSizes [blk 30, blk MaxInt64] := by
  decide

/-- C3 amended, capacity invariant: in every packer state reached from an empty packer by
any sequence of `BinPacker.Add`, `createBin` and direct `Bin.Add` calls, successful or failed,
every bin has `size <= limit`, and `size` is the sum of `Size()` over its items reduced to
the range of a Go `int` (wrap-around), hence equal to that sum whenever the sum is in that
range.  Holds for every capacity and every item size. -/
theorem capacity_invariant {T : Type} (max : Int) (observers : List Observer)
    (ops : List (Op T)) (b : Bin T)
    (hb : b ∈ (run (emptyPacker T max observers) ops).1.bins) :
    b.size ≤ b.limit ∧ b.size = wrap (sumSizes b.items) ∧
    (isInt64 (sumSizes b.items) → b.size = sumSizes b.items) := by
  have hrun := run_preserves
    (fun c : Bin T => c.size ≤ c.limit ∧ c.size = wrap (sumSizes c.items))
    (fun _ => True) max
    (by
      intro c item _ hc
      by_cases hfit : wrap (c.size + item.Size) ≤ c.limit
      · rw [Bin.Add_of_fits c item hfit]
        refine ⟨hfit, ?_⟩
        have hsum : sumSizes (c.items ++ [item]) = sumSizes c.items + item.Size := by
          simp [sumSizes, List.sum_append]
        simp only [hsum]
        rw [hc.2, wrap_wrap_add]
      · rw [Bin.Add_of_not_fits c item hfit]
        exact hc)
    (by
      intro id hm
      exact ⟨by simp only; omega, by simp [sumSizes, wrap]⟩)
    ops (fun _ _ _ _ => trivial) (emptyPacker T max observers) rfl
    (by simp [emptyPacker])
  have h := hrun.2 b hb
  exact ⟨h.1, h.2, fun hin => by rw [h.2, wrap_of_isInt64 _ hin]⟩

/-- Witness of C3 amended: capacity 100; a bin is created, 30 is added to it directly, then
50, 40 and 150 are added through the packer; bin 0 holds 30 and 50. -/
theorem capacity_invariant_witness :
    (⟨100, 80, 0, [blk 30, blk 50]⟩ : Bin String) ∈
      (run (emptyPacker String 100 [7]) [.createBin, .binAdd 0 (blk 30),
        .add (some (blk 50)), .add (some (blk 40)), .add (some (blk 150))]).1.bins ∧
    (⟨100, 80, 0, [blk 30, blk 50]⟩ : Bin String).size ≤
      (⟨100, 80, 0, [blk 30, blk 50]⟩ : Bin String).limit ∧
    (⟨100, 80, 0, [blk 30, blk 50]⟩ : Bin String).size =
      wrap (sumSizes (⟨100, 80, 0, [blk 30, blk 50]⟩ : Bin String).items) ∧
    (isInt64 (sumSizes (⟨100, 80, 0, [blk 30, blk 50]⟩ : Bin String).items) →
      (⟨100, 80, 0, [blk 30, blk 50]⟩ : Bin String).size =
        sumSizes (⟨100, 80, 0, [blk 30, blk 50]⟩ : Bin String).items) :=
  ⟨by decide, capacity_invariant 100 [7] [.createBin, .binAdd 0 (blk 30),
    .add (some (blk 50)), .add (some (blk 40)), .add (some (blk 150))]
    ⟨100, 80, 0, [blk 30, blk 50]⟩ (by decide)⟩

/-- C6 as stated fails: capacity 100, after `Add` of 30 the item of size `MaxInt64 > max` is
not refused: `30 + MaxInt64` wraps around, `Add` returns no error and bin 0 is changed. -/
theorem oversize_accepted_on_overflow :
    (1 : Int) ≤ 100 ∧ 0 ≤ (blk 30).Size ∧ (100 : Int) < (blk MaxInt64).Size ∧
    (run (emptyPacker String 100 [7]) [.add (some (blk 30))]).1.bins =
      [⟨100, 30, 0, [blk 30]⟩] ∧
    ((run (emptyPacker String 100 [7]) [.add (some (blk 30))]).1.Add
      (some (blk MaxInt64))).ret = none ∧
    ((run (emptyPacker String 100 [7]) [.add (some (blk 30))]).1.Add
      (some (blk MaxInt64))).packer.bins =
      [⟨100, -9223372036854775779, 0, [blk 30, blk MaxInt64]⟩] := by
  decide

/-- C6 amended, rejection on oversize: in a packer of capacity `max >= 1` reached from empty
by calls whose item sizes `s` satisfy `0 <= s <= MaxInt64 - max`, `BinPacker.Add` of an item
with `max < item.Size() <= MaxInt64 - max` returns the error "item too large for a new bin",
makes no `Update` call, and every bin that existed before the call is at its index unchanged
afterwards. -/
theorem add_oversize_rejected {T : Type} (max : Int) (observers : List Observer)
    (ops : List (Op T)) (item : Block T) (hmax : 1 ≤ max)
    (hops : ∀ op ∈ ops, op.sizeWithin max) (hbig : max < item.Size)
    (hbound : item.Size + max ≤ 9223372036854775807) :
    ((run (emptyPacker T max observers) ops).1.Add (some item)).ret = some .itemTooLarge ∧
    (((run (emptyPacker T max observers) ops).1.Add (some item)).ret.map PackError.message =
      some "item too large for a new bin") ∧
    ((run (emptyPacker T max observers) ops).1.Add (some item)).calls = [] ∧
    (∀ (i : Nat) (b : Bin T), (run (emptyPacker T max observers) ops).1.bins[i]? = some b →
      ((run (emptyPacker T max observers) ops).1.Add (some item)).packer.bins[i]? =
        some b) := by
  have hrun := run_preserves (fun c : Bin T => c.limit = max ∧ 0 ≤ c.size ∧ c.size ≤ c.limit)
    (fun it => 0 ≤ it.Size ∧ it.Size + max ≤ 9223372036854775807) max
    (by
      intro c it hit hc
      have hw : wrap (c.size + it.Size) = c.size + it.Size :=
        wrap_of_isInt64 _ ⟨by omega, by omega⟩
      by_cases hfit : wrap (c.size + it.Size) ≤ c.limit
      · rw [Bin.Add_of_fits c it hfit]
        rw [hw] at hfit ⊢
        exact ⟨hc.1, by simp only; omega, hfit⟩
      · rw [Bin.Add_of_not_fits c it hfit]
        exact hc)
    (fun _ _ => ⟨rfl, le_refl _, by simp only; omega⟩)
    ops
    (by
      intro op hop it hit
      have h := hops op hop
      rcases hit with rfl | ⟨i, rfl⟩
      · exact h
      · exact h)
    (emptyPacker T max observers) rfl (by simp [emptyPacker])
  obtain ⟨hpmax, hall⟩ := hrun
  generalize (run (emptyPacker T max observers) ops).1 = p at hpmax hall ⊢
  have hnone : ∀ b ∈ p.bins, ¬ wrap (b.size + item.Size) ≤ b.limit := by
    intro b hb
    have := hall b hb
    rw [wrap_of_isInt64 _ ⟨by omega, by omega⟩]
    omega
  have hm : ¬ p.max < 1 := by omega
  have hw : wrap item.Size = item.Size := wrap_of_isInt64 _ ⟨by omega, by omega⟩
  have hroom : ¬ item.Size ≤ p.max := by omega
  have hret : (p.Add (some item)).ret = some .itemTooLarge := by
    simp [BinPacker.Add, addLoop_none_fits item p.bins hnone, NewBin, hm, Bin.Add,
      Bin.hasRoom, hw, hroom]
  have hbins : (p.Add (some item)).packer.bins =
      p.bins ++ [{ limit := p.max, size := 0, id := p.count, items := [] }] := by
    simp [BinPacker.Add, addLoop_none_fits item p.bins hnone, NewBin, hm, Bin.Add,
      Bin.hasRoom, hw, hroom]
  refine ⟨hret, by rw [hret]; rfl, ?_, ?_⟩
  · simp [BinPacker.Add, addLoop_none_fits item p.bins hnone, NewBin, hm, Bin.Add,
      Bin.hasRoom, hw, hroom]
  · intro i b hi
    have hlt : i < p.bins.length := (List.getElem?_eq_some_iff.mp hi).1
    rw [hbins, List.getElem?_append_left hlt]
    exact hi

/-- Witness of C6 amended: capacity 100, after items of 30 and 50 an item of size 150 is
refused and bin 0 still holds 30 and 50. -/
theorem add_oversize_rejected_witness :
    ((run (emptyPacker String 100 [7]) [.add (some (blk 30)), .add (some (blk 50))]).1.Add
      (some (blk 150))).ret = some .itemTooLarge ∧
    (((run (emptyPacker String 100 [7]) [.add (some (blk 30)), .add (some (blk 50))]).1.Add
      (some (blk 150))).ret.map PackError.message = some "item too large for a new bin") ∧
    ((run (emptyPacker String 100 [7]) [.add (some (blk 30)), .add (some (blk 50))]).1.Add
      (some (blk 150))).calls = [] ∧
    (∀ (i : Nat) (b : Bin String),
      (run (emptyPacker String 100 [7])
        [.add (some (blk 30)), .add (some (blk 50))]).1.bins[i]? = some b →
      ((run (emptyPacker String 100 [7]) [.add (some (blk 30)), .add (some (blk 50))]).1.Add
        (some (blk 150))).packer.bins[i]? = some b) :=
  add_oversize_rejected 100 [7] [.add (some (blk 30)), .add (some (blk 50))] (blk 150)
    (by decide) (by simp [Op.sizeWithin, blk]) (by decide) (by decide)

/-- C20 as stated fails: capacity 100, one bin holding 30, item of size `MaxInt64 > max`.
No existing bin has `size + item.Size() <= limit`, yet `Add` returns no error and appends no
bin: `30 + MaxInt64` wraps around and the item goes into bin 0. -/
theorem oversize_leaves_no_empty_bin_on_overflow :
    (1 : Int) ≤ 100 ∧ (100 : Int) < (blk MaxInt64).Size ∧
    (∀ b ∈ [(⟨100, 30, 0, [blk 30]⟩ : Bin String)],
      ¬ b.size + (blk MaxInt64).Size ≤ b.limit) ∧
    (BinPacker.Add ⟨100, [⟨100, 30, 0, [blk 30]⟩], 1, ⟨[7]⟩⟩ (some (blk MaxInt64))).ret =
      none ∧
    (BinPacker.Add ⟨100, [⟨100, 30, 0, [blk 30]⟩], 1, ⟨[7]⟩⟩ (some (blk MaxInt64))).packer =
      ⟨100, [⟨100, -9223372036854775779, 0, [blk 30, blk MaxInt64]⟩], 1, ⟨[7]⟩⟩ := by
  decide

/-- C20 amended, state left behind by a failed oversize `Add`: on a packer of capacity
`max >= 1`, for an item whose size is a Go `int` with `item.Size() > max`, that no existing
bin has room for and for which no sum `size + item.Size()` over the existing bins leaves
the range of a Go `int`, `BinPacker.Add` returns the error "item too large for a new bin";
the packer afterwards is the packer before with one new empty bin (size 0, no items, id the
previous id counter) appended and the id counter raised by one; no `Update` call at all is
made, so no event of any type is dispatched. -/
theorem add_oversize_leaves_empty_bin {T : Type} (p : BinPacker T) (item : Block T)
    (hmax : 1 ≤ p.max) (hint : isInt64 item.Size)
    (hno : ∀ b ∈ p.bins, isInt64 (b.size + item.Size))
    (hnone : ∀ b ∈ p.bins, ¬ b.size + item.Size ≤ b.limit)
    (hbig : p.max < item.Size) :
    (p.Add (some item)).ret = some .itemTooLarge ∧
    (p.Add (some item)).packer =
      { p with
        bins := p.bins ++ [{ limit := p.max, size := 0, id := p.count, items := [] }],
        count := p.count + 1 } ∧
    (p.Add (some item)).calls = [] := by
  have hm : ¬ p.max < 1 := by omega
  have hw : wrap item.Size = item.Size := wrap_of_isInt64 _ hint
  have hroom : ¬ item.Size ≤ p.max := by omega
  have hnone1 : ∀ b ∈ p.bins, ¬ wrap (b.size + item.Size) ≤ b.limit := by
    intro b hb
    rw [wrap_of_isInt64 _ (hno b hb)]
    exact hnone b hb
  simp [BinPacker.Add, addLoop_none_fits item p.bins hnone1, NewBin, hm, Bin.Add,
    Bin.hasRoom, hw, hroom]

/-- Witness of C20 amended: capacity 100, one bin holding 80, an item of size 150. -/
theorem add_oversize_leaves_empty_bin_witness :
    (BinPacker.Add ⟨100, [⟨100, 80, 0, [blk 80]⟩], 1, ⟨[7]⟩⟩ (some (blk 150))).ret =
      some .itemTooLarge ∧
    (BinPacker.Add ⟨100, [⟨100, 80, 0, [blk 80]⟩], 1, ⟨[7]⟩⟩ (some (blk 150))).packer =
      ⟨100, [⟨100, 80, 0, [blk 80]⟩, ⟨100, 0, 1, []⟩], 2, ⟨[7]⟩⟩ ∧
    (BinPacker.Add ⟨100, [⟨100, 80, 0, [blk 80]⟩], 1, ⟨[7]⟩⟩ (some (blk 150))).calls = [] :=
  add_oversize_leaves_empty_bin ⟨100, [⟨100, 80, 0, [blk 80]⟩], 1, ⟨[7]⟩⟩ (blk 150)
    (by decide) (by decide) (by decide) (by decide) (by decide)

/-- C7 on the code: capacity 100, one recording listener, one `Add` of an item of size 150.
The call fails with "item too large for a new bin", yet the bin list then holds one (empty)
bin while the listener has counted no `BinCreated` event. -/
theorem failed_add_leaves_bin_without_event :
    (run (emptyPacker String 100 [7]) [.add (some (blk 150))]).1.bins =
      [⟨100, 0, 0, []⟩] ∧
    ((emptyPacker String 100 [7]).Add (some (blk 150))).ret = some .itemTooLarge ∧
    (testObserver.counterAfter 7
      (run (emptyPacker String 100 [7]) [.add (some (blk 150))]).2).created = 0 := by
  decide

/-! ## Events dispatched by `BinPacker.Add` -/

/-- C8, event trace of `Add`: a successful `BinPacker.Add` (no error returned) was given an
item, and there is a bin `b` at an index `i` of the new bin list such that either `b` is the
bin that was at `i` with the item appended (its size raised by `item.Size()` in Go `int`
arithmetic), the number of bins is unchanged and the calls
made are exactly the dispatch of one `BlockAdded` event carrying `b` and the item; or `i`
is the first new index, the bin list is one longer, `b` holds exactly the item and the calls
made are the dispatch of one `BinCreated` event carrying `b` followed by the dispatch of one
`BlockAdded` event carrying `b` and the item.  A failed `Add` makes no call at all.
Scenario: capacity 100, sizes 30, 50, 40, one listener: it receives `BinCreated(0)`,
`BlockAdded(0,30)`, `BlockAdded(0,50)`, `BinCreated(1)`, `BlockAdded(1,40)`. -/
theorem add_event_trace {T : Type} (p : BinPacker T) (item : Option (Block T)) :
    (match (p.Add item).ret with
      | none =>
        ∃ (block : Block T) (i : Nat) (b : Bin T),
          item = some block ∧ (p.Add item).packer.bins[i]? = some b ∧
          ((∃ b0 : Bin T, p.bins[i]? = some b0 ∧
              b = { b0 with items := b0.items ++ [block], size := wrap (b0.size + block.Size) } ∧
              (p.Add item).packer.bins.length = p.bins.length ∧
              (p.Add item).calls = p.observers.Notify (.BlockAddedEvent b block)) ∨
            (i = p.bins.length ∧
              (p.Add item).packer.bins.length = p.bins.length + 1 ∧
              b.items = [block] ∧
              (p.Add item).calls =
                p.observers.Notify (.BinCreatedEvent b) ++
                  p.observers.Notify (.BlockAddedEvent b block)))
      | some _ => (p.Add item).calls = []) ∧
    (deliveredTo 7 (run (emptyPacker String 100 [7])
        [.add (some (blk 30)), .add (some (blk 50)), .add (some (blk 40))]).2).map
      BinEvent.summary =
      [(.BinCreated, 0, none), (.BlockAdded, 0, some 30), (.BlockAdded, 0, some 50),
        (.BinCreated, 1, none), (.BlockAdded, 1, some 40)] := by
  refine ⟨?_, by decide⟩
  cases item with
  | none => simp [BinPacker.Add]
  | some block =>
    rcases addLoop_cases block p.bins with ⟨_, hloop⟩ | ⟨i, b0, hi, hfit, hloop⟩
    · by_cases hm : p.max < 1
      · simp [BinPacker.Add, hloop, NewBin, hm]
      · by_cases hroom : wrap block.Size ≤ p.max
        · simp [BinPacker.Add, hloop, NewBin, hm, Bin.Add, Bin.hasRoom, hroom]
          exact ⟨p.bins.length,
            { limit := p.max, size := wrap block.Size, id := p.count, items := [block] },
            by simp, rfl, rfl, rfl⟩
        · simp [BinPacker.Add, hloop, NewBin, hm, Bin.Add, Bin.hasRoom, hroom]
    · have hlt : i < p.bins.length := (List.getElem?_eq_some_iff.mp hi).1
      simp only [BinPacker.Add, hloop]
      refine ⟨block, i, _, rfl, ?_, Or.inl ⟨b0, hi, rfl, ?_, rfl⟩⟩
      · simp [List.getElem?_set, hlt]
      · simp

/-! ## Rejections and growth of the bin list -/

/-- C11, a nil item is rejected atomically: `BinPacker.Add(nil)` returns the error "item
cannot be nil", the packer afterwards is the packer before (bin list, every bin, id counter,
capacity and listener list), and no `Update` call is made. -/
theorem add_nil_rejected {T : Type} (p : BinPacker T) :
    (p.Add none).ret = some .nilItem ∧
    (p.Add none).ret.map PackError.message = some "item cannot be nil" ∧
    (p.Add none).packer = p ∧
    (p.Add none).calls = [] :=
  ⟨rfl, rfl, rfl, rfl⟩

/-- C13, monotonic bin growth: after `BinPacker.Add`, successful or failed, the bin list has
the length it had or one more, and every bin that was at an index is still at that index,
with its id and limit, either untouched or with the item appended (its size raised by
`item.Size()` in Go `int` arithmetic); so no bin is removed, merged or reordered. -/
theorem add_bins_grow {T : Type} (p : BinPacker T) (item : Option (Block T)) :
    ((p.Add item).packer.bins.length = p.bins.length ∨
      (p.Add item).packer.bins.length = p.bins.length + 1) ∧
    (∀ (i : Nat) (b : Bin T), p.bins[i]? = some b →
      ∃ b1 : Bin T, (p.Add item).packer.bins[i]? = some b1 ∧ b1.id = b.id ∧
        b1.limit = b.limit ∧
        (b1 = b ∨ ∃ block : Block T, item = some block ∧
          b1 = { b with items := b.items ++ [block], size := wrap (b.size + block.Size) })) := by
  have happ : ∀ (x : Bin T) (i : Nat) (b : Bin T), p.bins[i]? = some b →
      (p.bins ++ [x])[i]? = some b := by
    intro x i b hi
    rw [List.getElem?_append_left (List.getElem?_eq_some_iff.mp hi).1]
    exact hi
  cases item with
  | none => exact ⟨Or.inl rfl, fun i b hi => ⟨b, hi, rfl, rfl, Or.inl rfl⟩⟩
  | some block =>
    rcases addLoop_cases block p.bins with ⟨_, hloop⟩ | ⟨i0, b0, hi0, _, hloop⟩
    · by_cases hm : p.max < 1
      · refine ⟨Or.inl (by simp [BinPacker.Add, hloop, NewBin, hm]), fun i b hi => ?_⟩
        exact ⟨b, by simpa [BinPacker.Add, hloop, NewBin, hm] using hi, rfl, rfl, Or.inl rfl⟩
      · by_cases hroom : wrap block.Size ≤ p.max
        · refine ⟨Or.inr (by simp [BinPacker.Add, hloop, NewBin, hm, Bin.Add, Bin.hasRoom,
            hroom]), fun i b hi => ?_⟩
          refine ⟨b, ?_, rfl, rfl, Or.inl rfl⟩
          simpa [BinPacker.Add, hloop, NewBin, hm, Bin.Add, Bin.hasRoom, hroom]
            using happ _ i b hi
        · refine ⟨Or.inr (by simp [BinPacker.Add, hloop, NewBin, hm, Bin.Add, Bin.hasRoom,
            hroom]), fun i b hi => ?_⟩
          refine ⟨b, ?_, rfl, rfl, Or.inl rfl⟩
          simpa [BinPacker.Add, hloop, NewBin, hm, Bin.Add, Bin.hasRoom, hroom]
            using happ _ i b hi
    · refine ⟨Or.inl (by simp [BinPacker.Add, hloop]), fun i b hi => ?_⟩
      have hlt : i < p.bins.length := (List.getElem?_eq_some_iff.mp hi).1
      by_cases hii : i0 = i
      · subst hii
        have hb : b0 = b := Option.some.inj (hi0.symm.trans hi)
        subst hb
        exact ⟨{ b0 with items := b0.items ++ [block], size := wrap (b0.size + block.Size) },
          by simp [BinPacker.Add, hloop, List.getElem?_set, hlt], rfl, rfl,
          Or.inr ⟨block, rfl, rfl⟩⟩
      · exact ⟨b, by simp [BinPacker.Add, hloop, List.getElem?_set, hii, hi], rfl, rfl,
          Or.inl rfl⟩

/-! ## Bin ids -/

theorem ids_set {T : Type} (l : List (Bin T)) (k : Nat) (c c1 : Bin T)
    (hl : ∀ (i : Nat) (b : Bin T), l[i]? = some b → b.id = (i : Int))
    (hk : l[k]? = some c) (hid : c1.id = c.id) :
    ∀ (i : Nat) (b : Bin T), (l.set k c1)[i]? = some b → b.id = (i : Int) := by
  intro i b h
  by_cases hki : k = i
  · subst hki
    have hlt : k < l.length := (List.getElem?_eq_some_iff.mp hk).1
    simp [List.getElem?_set, hlt] at h
    rw [← h, hid]
    exact hl k c hk
  · simp [List.getElem?_set, hki] at h
    exact hl i b h

theorem ids_append {T : Type} (l : List (Bin T)) (x : Bin T)
    (hl : ∀ (i : Nat) (b : Bin T), l[i]? = some b → b.id = (i : Int))
    (hx : x.id = (l.length : Int)) :
    ∀ (i : Nat) (b : Bin T), (l ++ [x])[i]? = some b → b.id = (i : Int) := by
  intro i b h
  by_cases hlt : i < l.length
  · rw [List.getElem?_append_left hlt] at h
    exact hl i b h
  · have hle : l.length ≤ i := Nat.le_of_not_lt hlt
    rw [List.getElem?_append_right hle] at h
    have hi : i - l.length = 0 := by
      by_contra hne
      obtain ⟨k, hk⟩ := Nat.exists_eq_succ_of_ne_zero hne
      rw [hk] at h
      simp at h
    rw [hi] at h
    simp at h
    have hil : i = l.length := by omega
    rw [← h, hx, hil]

theorem Bin.Add_id {T : Type} (bin : Bin T) (item : Block T) : (bin.Add item).1.id = bin.id := by
  by_cases h : wrap (bin.size + item.Size) ≤ bin.limit <;> simp [Bin.Add, Bin.hasRoom, h]

theorem step_ids {T : Type} (p : BinPacker T) (op : Op T)
    (hcount : p.count = (p.bins.length : Int))
    (hids : ∀ (i : Nat) (b : Bin T), p.bins[i]? = some b → b.id = (i : Int)) :
    (step p op).1.count = ((step p op).1.bins.length : Int) ∧
    ∀ (i : Nat) (b : Bin T), (step p op).1.bins[i]? = some b → b.id = (i : Int) := by
  cases op with
  | add item =>
    cases item with
    | none => exact ⟨hcount, hids⟩
    | some block =>
      rcases addLoop_cases block p.bins with ⟨_, hloop⟩ | ⟨i0, b0, hi0, _, hloop⟩
      · by_cases hm : p.max < 1
        · simpa [step, BinPacker.Add, hloop, NewBin, hm] using And.intro hcount hids
        · by_cases hroom : wrap block.Size ≤ p.max
          · simpa [step, BinPacker.Add, hloop, NewBin, hm, Bin.Add, Bin.hasRoom, hroom,
              hcount] using ids_append p.bins
                { limit := p.max, size := wrap block.Size, id := p.count, items := [block] }
                hids hcount
          · simpa [step, BinPacker.Add, hloop, NewBin, hm, Bin.Add, Bin.hasRoom, hroom,
              hcount] using ids_append p.bins
                { limit := p.max, size := 0, id := p.count, items := [] } hids hcount
      · simpa [step, BinPacker.Add, hloop, hcount] using ids_set p.bins i0 b0
          { b0 with items := b0.items ++ [block], size := wrap (b0.size + block.Size) }
          hids hi0 rfl
  | createBin =>
    by_cases hm : p.max < 1
    · simpa [step, BinPacker.createBin, NewBin, hm] using And.intro hcount hids
    · simpa [step, BinPacker.createBin, NewBin, hm, hcount] using ids_append p.bins
        { limit := p.max, size := 0, id := p.count, items := [] } hids hcount
  | binAdd k item =>
    cases hk : p.bins[k]? with
    | none => simpa [step, BinPacker.binAdd, hk] using And.intro hcount hids
    | some c =>
      simpa [step, BinPacker.binAdd, hk, hcount] using
        ids_set p.bins k c (c.Add item).1 hids hk (Bin.Add_id c item)

theorem run_ids {T : Type} (ops : List (Op T)) (p : BinPacker T)
    (hcount : p.count = (p.bins.length : Int))
    (hids : ∀ (i : Nat) (b : Bin T), p.bins[i]? = some b → b.id = (i : Int)) :
    (run p ops).1.count = ((run p ops).1.bins.length : Int) ∧
    ∀ (i : Nat) (b : Bin T), (run p ops).1.bins[i]? = some b → b.id = (i : Int) := by
  induction ops generalizing p with
  | nil => exact ⟨hcount, hids⟩
  | cons op ops ih => exact ih (step p op).1 (step_ids p op hcount hids).1 (step_ids p op hcount hids).2

/-- C12, bin-id invariant: in every packer state reached from an empty packer (no bins, id
counter 0) by any sequence of `BinPacker.Add` and `createBin` calls, successful or failed
(direct `Bin.Add` calls may be mixed in), the id counter equals the number of bins and the
bin at index `i` of the bin list has id `i`; so the ids are strictly increasing and unique.
Holds for every capacity, so also for `max >= 1`.  Scenario: capacity 100, sizes 30, 150,
80, 90 give bins with ids 0, 1, 2 (the bin left by the refused 150 takes the 80). -/
theorem bin_id_invariant {T : Type} (max : Int) (observers : List Observer)
    (ops : List (Op T)) :
    (run (emptyPacker T max observers) ops).1.count =
      ((run (emptyPacker T max observers) ops).1.bins.length : Int) ∧
    (∀ (i : Nat) (b : Bin T), (run (emptyPacker T max observers) ops).1.bins[i]? = some b →
      b.id = (i : Int)) ∧
    (∀ (i j : Nat) (b c : Bin T), (run (emptyPacker T max observers) ops).1.bins[i]? = some b →
      (run (emptyPacker T max observers) ops).1.bins[j]? = some c → i < j → b.id < c.id) ∧
    (run (emptyPacker String 100 [7]) [.add (some (blk 30)), .add (some (blk 150)),
      .add (some (blk 80)), .add (some (blk 90))]).1.bins.map (fun b => b.id) = [0, 1, 2] := by
  have h := run_ids ops (emptyPacker T max observers) rfl (by simp [emptyPacker])
  refine ⟨h.1, h.2, ?_, by decide⟩
  intro i j b c hi hj hij
  rw [h.2 i b hi, h.2 j c hj]
  exact_mod_cast hij

/-! ## Total size -/

/-- C19 on the code: capacity 100, one listener, `Add` of an item of size 30 on the empty
packer opens bin 0, and the bin the listener sees in the `BinCreated` event already holds
the item (size 30), so it is not empty. -/
theorem binCreated_bin_not_empty :
    ((emptyPacker String 100 [7]).Add (some (blk 30))).packer.bins.length =
      (emptyPacker String 100 [7]).bins.length + 1 ∧
    deliveredTo 7 ((emptyPacker String 100 [7]).Add (some (blk 30))).calls =
      [.BinCreatedEvent ⟨100, 30, 0, [blk 30]⟩,
        .BlockAddedEvent ⟨100, 30, 0, [blk 30]⟩ (blk 30)] ∧
    ¬ (∀ e ∈ deliveredTo 7 ((emptyPacker String 100 [7]).Add (some (blk 30))).calls,
        e.eventType = .BinCreated → e.Bin.size = 0 ∧ e.Bin.items = []) := by
  decide

/-! ## The notifier -/

theorem subscribe_observers (s : ConcreteSubject) (regs : List (Bool × Observer)) :
    (subscribe s regs).observers = s.observers ++ regs.map Prod.snd := by
  induction regs generalizing s with
  | nil => simp [subscribe]
  | cons r rest ih =>
    obtain ⟨flag, o⟩ := r
    cases flag <;>
      simp [subscribe, ih, ConcreteSubject.Register, ConcreteSubject.Attach]

theorem same_of_pointer (o x : Observer) (t : Nat) (ho : o.dynType = .pointer t) :
    Observer.same o x = some (decide (o = x)) := by
  obtain ⟨od, oi⟩ := o
  obtain ⟨xd, xi⟩ := x
  simp only at ho
  subst ho
  by_cases hd : DynType.pointer t = xd
  · subst hd
    simp [Observer.same]
  · simp [Observer.same, hd]

theorem firstMatch_removal (o : Observer) (t : Nat) (ho : o.dynType = .pointer t)
    (l : List Observer) :
    ∃ r : Option Nat, ConcreteSubject.firstMatch o l = some r ∧
      (match r with
        | none => l
        | some i => l.take i ++ l.drop (i + 1)) = l.erase o := by
  induction l with
  | nil => exact ⟨none, rfl, rfl⟩
  | cons x xs ih =>
    obtain ⟨r, hr, hrem⟩ := ih
    by_cases h : o = x
    · subst h
      exact ⟨some 0, by simp [ConcreteSubject.firstMatch, same_of_pointer o o t ho], by simp⟩
    · have hx : ¬ x = o := fun hxo => h hxo.symm
      refine ⟨r.map (fun i => i + 1),
        by simp [ConcreteSubject.firstMatch, same_of_pointer o x t ho, h, hr], ?_⟩
      cases r with
      | none => simpa [List.erase_cons, hx] using hrem
      | some i => simpa [List.erase_cons, hx] using hrem

/-- C16 as stated fails: a listener of a dynamic type that is not comparable (a func
adapter) is registered; `Deregister` and `Detach` of it panic in `o == observer` instead of
removing it. -/
theorem deregister_panics_on_uncomparable :
    (ConcreteSubject.Register ⟨[]⟩ ⟨.uncomparable 0, 0⟩).observers =
      [⟨.uncomparable 0, 0⟩] ∧
    ConcreteSubject.Deregister ⟨[⟨.uncomparable 0, 0⟩]⟩ ⟨.uncomparable 0, 0⟩ = none ∧
    ConcreteSubject.Detach ⟨[⟨.uncomparable 0, 0⟩]⟩ ⟨.uncomparable 0, 0⟩ = none := by
  decide

/-- C16 amended, deregistration removes only the first match: for a listener `o` whose
dynamic type is a pointer type, `Deregister(o)` and `Detach(o)` do not panic and
leave the listener list with the first occurrence of `o` removed (`List.erase`): when the
list is `pre ++ o :: post` with `o` not in `pre` the result is `pre ++ post`, later
duplicates of `o` in `post` included and the order kept; when `o` is not in the list the
notifier is unchanged.  Neither returns anything, so there is no error. -/
theorem deregister_removes_first_match (s : ConcreteSubject) (o : Observer) (t : Nat)
    (ho : o.dynType = .pointer t) :
    s.Deregister o = some ⟨s.observers.erase o⟩ ∧
    s.Detach o = some ⟨s.observers.erase o⟩ ∧
    (∀ pre post : List Observer, s.observers = pre ++ o :: post → o ∉ pre →
      s.Deregister o = some ⟨pre ++ post⟩ ∧ s.Detach o = some ⟨pre ++ post⟩) ∧
    (o ∉ s.observers → s.Deregister o = some s ∧ s.Detach o = some s) ∧
    ConcreteSubject.Deregister ⟨[1, 2, 1, 3]⟩ 1 = some ⟨[2, 1, 3]⟩ := by
  obtain ⟨r, hr, hrem⟩ := firstMatch_removal o t ho s.observers
  have hD : s.Deregister o = some ⟨s.observers.erase o⟩ := by
    unfold ConcreteSubject.Deregister
    rw [hr, ← hrem]
    cases r <;> rfl
  have hT : s.Detach o = some ⟨s.observers.erase o⟩ := by
    unfold ConcreteSubject.Detach
    rw [hr, ← hrem]
    cases r <;> rfl
  refine ⟨hD, hT, ?_, ?_, by decide⟩
  · intro pre post hs hpre
    have he : s.observers.erase o = pre ++ post := by
      rw [hs, List.erase_append_right _ hpre, List.erase_cons_head]
    rw [hD, hT, he]
    exact ⟨rfl, rfl⟩
  · intro hno
    have he : s.observers.erase o = s.observers := List.erase_of_not_mem hno
    rw [hD, hT, he]
    exact ⟨rfl, rfl⟩

/-- Witness of C16 amended: listener 1 is registered twice; its first registration goes. -/
theorem deregister_removes_first_match_witness :
    (1 : Observer).dynType = .pointer 0 ∧
    ConcreteSubject.Deregister ⟨[2, 1, 3, 1]⟩ 1 = some ⟨[2, 3, 1]⟩ ∧
    ConcreteSubject.Detach ⟨[2, 1, 3, 1]⟩ 1 = some ⟨[2, 3, 1]⟩ :=
  ⟨rfl,
    (deregister_removes_first_match ⟨[2, 1, 3, 1]⟩ 1 0 rfl).1.trans (by decide),
    (deregister_removes_first_match ⟨[2, 1, 3, 1]⟩ 1 0 rfl).2.1.trans (by decide)⟩

/-! ## Listeners that act during `Update` -/

theorem scan_none_fits {T : Type} (item : Block T) (bins : List (Bin T))
    (h : ∀ b ∈ bins, ¬ wrap (b.size + item.Size) ≤ b.limit) :
    BinPacker.scan item bins = (bins, none) := by
  induction bins with
  | nil => rfl
  | cons b rest ih =>
    have hb : ¬ wrap (b.size + item.Size) ≤ b.limit := h b (List.mem_cons_self _ _)
    have hrest : ∀ c ∈ rest, ¬ wrap (c.size + item.Size) ≤ c.limit :=
      fun c hc => h c (List.mem_cons_of_mem _ hc)
    simp [BinPacker.scan, Bin.Add_of_not_fits b item hb, ih hrest]

theorem scan_first_fit {T : Type} (item : Block T) (bins : List (Bin T)) (i : Nat)
    (b : Bin T) (hi : bins[i]? = some b) (hfit : wrap (b.size + item.Size) ≤ b.limit)
    (hmin : ∀ (j : Nat) (c : Bin T), j < i → bins[j]? = some c →
      ¬ wrap (c.size + item.Size) ≤ c.limit) :
    BinPacker.scan item bins =
      (bins.set i { b with items := b.items ++ [item], size := wrap (b.size + item.Size) },
        some i) := by
  induction bins generalizing i with
  | nil => simp at hi
  | cons a rest ih =>
    cases i with
    | zero =>
      simp at hi
      subst hi
      simp [BinPacker.scan, Bin.Add_of_fits a item hfit]
    | succ k =>
      simp at hi
      have ha : ¬ wrap (a.size + item.Size) ≤ a.limit := hmin 0 a (Nat.succ_pos k) (by simp)
      have hrest : ∀ (j : Nat) (c : Bin T), j < k → rest[j]? = some c →
          ¬ wrap (c.size + item.Size) ≤ c.limit :=
        fun j c hj hc => hmin (j + 1) c (Nat.succ_lt_succ hj) (by simpa using hc)
      simp [BinPacker.scan, Bin.Add_of_not_fits a item ha, ih k hi hrest]

/-- The scan with a pointer and the scan with a snapshot agree: no bin with room and nothing
changed, or the item placed in the first bin with room. -/
theorem scan_cases {T : Type} (item : Block T) (bins : List (Bin T)) :
    ((∀ b ∈ bins, ¬ wrap (b.size + item.Size) ≤ b.limit) ∧
      BinPacker.addLoop item bins = (bins, none) ∧ BinPacker.scan item bins = (bins, none)) ∨
    (∃ (i : Nat) (b : Bin T), bins[i]? = some b ∧ wrap (b.size + item.Size) ≤ b.limit ∧
      BinPacker.addLoop item bins =
        (bins.set i { b with items := b.items ++ [item], size := wrap (b.size + item.Size) },
          some { b with items := b.items ++ [item], size := wrap (b.size + item.Size) }) ∧
      BinPacker.scan item bins =
        (bins.set i { b with items := b.items ++ [item], size := wrap (b.size + item.Size) },
          some i)) := by
  by_cases h : ∃ b ∈ bins, wrap (b.size + item.Size) ≤ b.limit
  · obtain ⟨i, b, hi, hfit, hmin⟩ := exists_first_fit item bins h
    exact Or.inr ⟨i, b, hi, hfit, addLoop_first_fit item bins i b hi hfit hmin,
      scan_first_fit item bins i b hi hfit hmin⟩
  · have hnone : ∀ b ∈ bins, ¬ wrap (b.size + item.Size) ≤ b.limit :=
      fun b hb hfit => h ⟨b, hb, hfit⟩
    exact Or.inl ⟨hnone, addLoop_none_fits item bins hnone, scan_none_fits item bins hnone⟩

theorem notifyLoop_inert {T : Type} (d : Pending T) (w : BinPacker T) (b : Bin T)
    (hb : w.bins[d.bin]? = some b) (l : List Observer) (k i : Nat)
    (past : List (Observer × BinEvent T)) :
    notifyLoop (inert T) d k i past (w, l) =
      (w, ((l.drop i).take k).map (fun o => (o, d.seen b))) := by
  induction k generalizing i past with
  | zero => simp [notifyLoop]
  | succ k ih =>
    cases hi : l[i]? with
    | none =>
      have hlen : l.length ≤ i := by
        by_contra hlt
        have := List.getElem?_eq_getElem (Nat.lt_of_not_le hlt)
        rw [hi] at this
        exact Option.noConfusion this
      simp [notifyLoop, hi, List.drop_eq_nil_of_le hlen]
    | some o =>
      have hlt : i < l.length := (List.getElem?_eq_some_iff.mp hi).1
      have ho : l[i] = o := (List.getElem?_eq_some_iff.mp hi).2
      have hdrop : l.drop i = o :: l.drop (i + 1) := by
        rw [← ho]
        exact List.drop_eq_getElem_cons hlt
      simp [notifyLoop, hi, hb, inert, ih, hdrop]

/-- For listeners that only read, the dispatch for listeners that act is
`ConcreteSubject.Notify`: the packer is untouched and every registered listener is called
once, in order, with the same event. -/
theorem notifyLive_inert {T : Type} (past : List (Observer × BinEvent T)) (d : Pending T)
    (w : BinPacker T) (b : Bin T) (hb : w.bins[d.bin]? = some b) :
    ConcreteSubject.NotifyLive (inert T) past w d = (w, w.observers.Notify (d.seen b)) := by
  simp [ConcreteSubject.NotifyLive, notifyLoop_inert d w b hb, ConcreteSubject.Notify]

/-- For listeners that only read, `BinPacker.AddLive` is `BinPacker.Add`. -/
theorem addLive_inert {T : Type} (past : List (Observer × BinEvent T)) (p : BinPacker T)
    (item : Option (Block T)) :
    BinPacker.AddLive (inert T) past p item = p.Add item := by
  cases item with
  | none => rfl
  | some block =>
    rcases scan_cases block p.bins with ⟨_, hloop, hscan⟩ | ⟨i, b0, hi, _, hloop, hscan⟩
    · by_cases hm : p.max < 1
      · simp [BinPacker.AddLive, BinPacker.Add, hloop, hscan, NewBin, hm]
      · by_cases hroom : wrap block.Size ≤ p.max
        · have h1 := fun past => notifyLive_inert past (.created p.bins.length)
            ({ p with
                bins := p.bins ++
                  [{ limit := p.max, size := wrap block.Size, id := p.count, items := [block] }],
                count := p.count + 1 } : BinPacker T)
            { limit := p.max, size := wrap block.Size, id := p.count, items := [block] }
            (by simp [Pending.bin])
          have h2 := fun past => notifyLive_inert past (.added p.bins.length block)
            ({ p with
                bins := p.bins ++
                  [{ limit := p.max, size := wrap block.Size, id := p.count, items := [block] }],
                count := p.count + 1 } : BinPacker T)
            { limit := p.max, size := wrap block.Size, id := p.count, items := [block] }
            (by simp [Pending.bin])
          simp [BinPacker.AddLive, BinPacker.Add, hloop, hscan, NewBin, hm, Bin.Add,
            Bin.hasRoom, hroom, h1, h2, Pending.seen]
        · simp [BinPacker.AddLive, BinPacker.Add, hloop, hscan, NewBin, hm, Bin.Add,
            Bin.hasRoom, hroom]
    · have hlt : i < p.bins.length := (List.getElem?_eq_some_iff.mp hi).1
      have h1 := fun past => notifyLive_inert past (.added i block)
        ({ p with bins := (p.bins.set i
            { b0 with items := b0.items ++ [block], size := wrap (b0.size + block.Size) }) } :
          BinPacker T)
        { b0 with items := b0.items ++ [block], size := wrap (b0.size + block.Size) }
        (by simp [Pending.bin, List.getElem?_set, hlt])
      simp [BinPacker.AddLive, BinPacker.Add, hloop, hscan, h1, Pending.seen]

/-- For listeners that only read, `BinPacker.createBinLive` is `BinPacker.createBin`. -/
theorem createBinLive_inert {T : Type} (past : List (Observer × BinEvent T))
    (p : BinPacker T) :
    BinPacker.createBinLive (inert T) past p = p.createBin := by
  by_cases hm : p.max < 1
  · simp [BinPacker.createBinLive, BinPacker.createBin, NewBin, hm]
  · have h1 := fun past => notifyLive_inert past (.created p.bins.length)
      ({ p with
          count := p.count + 1,
          bins := p.bins ++ [{ limit := p.max, size := 0, id := p.count, items := [] }] } :
        BinPacker T)
      { limit := p.max, size := 0, id := p.count, items := [] }
      (by simp [Pending.bin])
    simp [BinPacker.createBinLive, BinPacker.createBin, NewBin, hm, h1, Pending.seen]

theorem add_ignores_listeners {T : Type} (p : BinPacker T) (item : Option (Block T))
    (obs1 obs2 : List Observer) :
    (BinPacker.Add { p with observers := ⟨obs1⟩ } item).ret =
      (BinPacker.Add { p with observers := ⟨obs2⟩ } item).ret ∧
    (BinPacker.Add { p with observers := ⟨obs1⟩ } item).packer.bins =
      (BinPacker.Add { p with observers := ⟨obs2⟩ } item).packer.bins ∧
    (BinPacker.Add { p with observers := ⟨obs1⟩ } item).packer.count =
      (BinPacker.Add { p with observers := ⟨obs2⟩ } item).packer.count ∧
    (BinPacker.Add { p with observers := ⟨obs1⟩ } item).packer.max =
      (BinPacker.Add { p with observers := ⟨obs2⟩ } item).packer.max ∧
    (BinPacker.Add { p with observers := ⟨obs1⟩ } item).packer.observers = ⟨obs1⟩ := by
  cases item with
  | none => simp [BinPacker.Add]
  | some block =>
    rcases addLoop_cases block p.bins with ⟨_, hloop⟩ | ⟨i, b0, _, _, hloop⟩
    · by_cases hm : p.max < 1
      · simp [BinPacker.Add, hloop, NewBin, hm]
      · by_cases hroom : wrap block.Size ≤ p.max <;>
          simp [BinPacker.Add, hloop, NewBin, hm, Bin.Add, Bin.hasRoom, hroom]
    · simp [BinPacker.Add, hloop]

theorem foldl_detach_only {T : Type} (bin : Nat) (acts : List (Action T))
    (hacts : ∀ a ∈ acts, ∃ x, a = Action.detach x) (st : BinPacker T × List Observer) :
    (acts.foldl (applyAction bin) st).1.bins = st.1.bins ∧
    (acts.foldl (applyAction bin) st).1.count = st.1.count ∧
    (acts.foldl (applyAction bin) st).1.max = st.1.max := by
  induction acts generalizing st with
  | nil => exact ⟨rfl, rfl, rfl⟩
  | cons a rest ih =>
    obtain ⟨x, rfl⟩ := hacts _ (List.mem_cons_self _ _)
    have hrest := ih (fun c hc => hacts c (List.mem_cons_of_mem _ hc)) (applyAction bin st (.detach x))
    have hone : (applyAction bin st (.detach x)).1.bins = st.1.bins ∧
        (applyAction bin st (.detach x)).1.count = st.1.count ∧
        (applyAction bin st (.detach x)).1.max = st.1.max := by
      cases hd : st.1.observers.Detach x <;> simp [applyAction, hd]
    simp only [List.foldl_cons]
    exact ⟨hrest.1.trans hone.1, hrest.2.1.trans hone.2.1, hrest.2.2.trans hone.2.2⟩

theorem notifyLoop_packing {T : Type} (react : Behaviour T) (d : Pending T)
    (hread : ∀ past o ev, ∀ a ∈ react past o ev, ∃ x, a = Action.detach x) (k i : Nat)
    (past : List (Observer × BinEvent T)) (st : BinPacker T × List Observer) :
    (notifyLoop react d k i past st).1.bins = st.1.bins ∧
    (notifyLoop react d k i past st).1.count = st.1.count ∧
    (notifyLoop react d k i past st).1.max = st.1.max := by
  induction k generalizing i past st with
  | zero => exact ⟨rfl, rfl, rfl⟩
  | succ k ih =>
    cases ho : st.2[i]? with
    | none => simp [notifyLoop, ho]
    | some o =>
      cases hb : st.1.bins[d.bin]? with
      | none => simp [notifyLoop, ho, hb]
      | some b =>
        have hf := foldl_detach_only d.bin (react past o (d.seen b))
          (hread past o (d.seen b)) st
        have hr := ih (i + 1) (past ++ [(o, d.seen b)])
          ((react past o (d.seen b)).foldl (applyAction d.bin) st)
        simp only [notifyLoop, ho, hb]
        exact ⟨hr.1.trans hf.1, hr.2.1.trans hf.2.1, hr.2.2.trans hf.2.2⟩

theorem notifyLive_packing {T : Type} (react : Behaviour T) (d : Pending T)
    (hread : ∀ past o ev, ∀ a ∈ react past o ev, ∃ x, a = Action.detach x)
    (past : List (Observer × BinEvent T)) (w : BinPacker T) :
    (ConcreteSubject.NotifyLive react past w d).1.bins = w.bins ∧
    (ConcreteSubject.NotifyLive react past w d).1.count = w.count ∧
    (ConcreteSubject.NotifyLive react past w d).1.max = w.max :=
  notifyLoop_packing react d hread _ _ _ _

theorem addLive_packing {T : Type} (react : Behaviour T)
    (hread : ∀ past o ev, ∀ a ∈ react past o ev, ∃ x, a = Action.detach x)
    (past : List (Observer × BinEvent T)) (p : BinPacker T) (item : Option (Block T)) :
    (BinPacker.AddLive react past p item).ret = (p.Add item).ret ∧
    (BinPacker.AddLive react past p item).packer.bins = (p.Add item).packer.bins ∧
    (BinPacker.AddLive react past p item).packer.count = (p.Add item).packer.count ∧
    (BinPacker.AddLive react past p item).packer.max = (p.Add item).packer.max := by
  cases item with
  | none => exact ⟨rfl, rfl, rfl, rfl⟩
  | some block =>
    rcases scan_cases block p.bins with ⟨_, hloop, hscan⟩ | ⟨i, b0, hi, _, hloop, hscan⟩
    · by_cases hm : p.max < 1
      · simp [BinPacker.AddLive, BinPacker.Add, hloop, hscan, NewBin, hm]
      · by_cases hroom : wrap block.Size ≤ p.max
        · simp [BinPacker.AddLive, BinPacker.Add, hloop, hscan, NewBin, hm, Bin.Add,
            Bin.hasRoom, hroom, notifyLive_packing react _ hread]
        · simp [BinPacker.AddLive, BinPacker.Add, hloop, hscan, NewBin, hm, Bin.Add,
            Bin.hasRoom, hroom]
    · simp [BinPacker.AddLive, BinPacker.Add, hloop, hscan, notifyLive_packing react _ hread]

/-- C17 as stated fails: capacity 100, `Add` of an item of size 30 on the empty packer.  With
no listener bin 0 ends with that item; with one listener that does not fail but, called with
the `BlockAdded` event, adds a block of size 50 to the bin the event hands it, bin 0 ends
with both (size 80).  The result is no error both times, the bin contents differ. -/
theorem listener_changes_bin_contents :
    (BinPacker.AddLive binFilling [] (emptyPacker String 100 []) (some (blk 30))).ret = none ∧
    (BinPacker.AddLive binFilling [] (emptyPacker String 100 [7]) (some (blk 30))).ret = none ∧
    (BinPacker.AddLive binFilling [] (emptyPacker String 100 []) (some (blk 30))).packer.bins =
      [⟨100, 30, 0, [blk 30]⟩] ∧
    (BinPacker.AddLive binFilling [] (emptyPacker String 100 [7]) (some (blk 30))).packer.bins =
      [⟨100, 80, 0, [blk 30, blk 50]⟩] ∧
    (BinPacker.AddLive binFilling [] (emptyPacker String 100 []) (some (blk 30))).packer.bins ≠
      (BinPacker.AddLive binFilling [] (emptyPacker String 100 [7]) (some (blk 30))).packer.bins := by
  decide

/-- C17 amended, listeners that leave the bins alone do not influence packing: when no
listener adds to a bin through the pointer an event hands it (a listener may take listeners
off the notifier), then for every packer state, every item (nil or not) and any two listener
lists, `BinPacker.Add` returns the same result and leaves the same bin list, id counter and
capacity under both. -/
theorem add_independent_of_listeners {T : Type} (react : Behaviour T)
    (hread : ∀ past o ev, ∀ a ∈ react past o ev, ∃ x, a = Action.detach x)
    (past : List (Observer × BinEvent T)) (p : BinPacker T) (item : Option (Block T))
    (obs1 obs2 : List Observer) :
    (BinPacker.AddLive react past { p with observers := ⟨obs1⟩ } item).ret =
      (BinPacker.AddLive react past { p with observers := ⟨obs2⟩ } item).ret ∧
    (BinPacker.AddLive react past { p with observers := ⟨obs1⟩ } item).packer.bins =
      (BinPacker.AddLive react past { p with observers := ⟨obs2⟩ } item).packer.bins ∧
    (BinPacker.AddLive react past { p with observers := ⟨obs1⟩ } item).packer.count =
      (BinPacker.AddLive react past { p with observers := ⟨obs2⟩ } item).packer.count ∧
    (BinPacker.AddLive react past { p with observers := ⟨obs1⟩ } item).packer.max =
      (BinPacker.AddLive react past { p with observers := ⟨obs2⟩ } item).packer.max := by
  have h1 := addLive_packing react hread past { p with observers := ⟨obs1⟩ } item
  have h2 := addLive_packing react hread past { p with observers := ⟨obs2⟩ } item
  have h := add_ignores_listeners p item obs1 obs2
  exact ⟨h1.1.trans (h.1.trans h2.1.symm), h1.2.1.trans (h.2.1.trans h2.2.1.symm),
    h1.2.2.1.trans (h.2.2.1.trans h2.2.2.1.symm),
    h1.2.2.2.trans (h.2.2.2.1.trans h2.2.2.2.symm)⟩

/-- Witness of C17 amended: listener 1 takes itself off the notifier when called; capacity
100, one bin holding 80, an item of size 10, with listeners 1 and 2 or with none. -/
theorem add_independent_of_listeners_witness :
    (BinPacker.AddLive selfDetaching []
        ⟨100, [⟨100, 80, 0, [blk 80]⟩], 1, ⟨[1, 2]⟩⟩ (some (blk 10))).ret =
      (BinPacker.AddLive selfDetaching []
        ⟨100, [⟨100, 80, 0, [blk 80]⟩], 1, ⟨[]⟩⟩ (some (blk 10))).ret ∧
    (BinPacker.AddLive selfDetaching []
        ⟨100, [⟨100, 80, 0, [blk 80]⟩], 1, ⟨[1, 2]⟩⟩ (some (blk 10))).packer.bins =
      (BinPacker.AddLive selfDetaching []
        ⟨100, [⟨100, 80, 0, [blk 80]⟩], 1, ⟨[]⟩⟩ (some (blk 10))).packer.bins ∧
    (BinPacker.AddLive selfDetaching []
        ⟨100, [⟨100, 80, 0, [blk 80]⟩], 1, ⟨[1, 2]⟩⟩ (some (blk 10))).packer.bins =
      [⟨100, 90, 0, [blk 80, blk 10]⟩] :=
  ⟨(add_independent_of_listeners selfDetaching
      (by
        intro past o ev a ha
        by_cases h : o = 1
        · exact ⟨1, by simpa [selfDetaching, h] using ha⟩
        · simp [selfDetaching, h] at ha)
      [] ⟨100, [⟨100, 80, 0, [blk 80]⟩], 1, ⟨[7]⟩⟩ (some (blk 10)) [1, 2] []).1,
    (add_independent_of_listeners selfDetaching
      (by
        intro past o ev a ha
        by_cases h : o = 1
        · exact ⟨1, by simpa [selfDetaching, h] using ha⟩
        · simp [selfDetaching, h] at ha)
      [] ⟨100, [⟨100, 80, 0, [blk 80]⟩], 1, ⟨[7]⟩⟩ (some (blk 10)) [1, 2] []).2.1,
    by decide⟩

theorem binAdd_keeps {T : Type} (bin : Nat) (w : BinPacker T) (item : Block T) :
    (w.binAdd bin item).1.observers = w.observers ∧
    ((w.bins[bin]?).isSome → ((w.binAdd bin item).1.bins[bin]?).isSome) := by
  cases hb : w.bins[bin]? with
  | none => simp [BinPacker.binAdd, hb]
  | some c =>
    have hlt : bin < w.bins.length := (List.getElem?_eq_some_iff.mp hb).1
    simp [BinPacker.binAdd, hb, List.getElem?_set, hlt]

theorem foldl_binAdd_only {T : Type} (bin : Nat) (acts : List (Action T))
    (hacts : ∀ a ∈ acts, ∃ item, a = Action.binAdd item) (st : BinPacker T × List Observer) :
    (acts.foldl (applyAction bin) st).2 = st.2 ∧
    (acts.foldl (applyAction bin) st).1.observers = st.1.observers ∧
    ((st.1.bins[bin]?).isSome → (((acts.foldl (applyAction bin) st).1.bins[bin]?).isSome)) := by
  induction acts generalizing st with
  | nil => exact ⟨rfl, rfl, fun h => h⟩
  | cons a rest ih =>
    obtain ⟨item, rfl⟩ := hacts _ (List.mem_cons_self _ _)
    have hrest := ih (fun c hc => hacts c (List.mem_cons_of_mem _ hc))
      (applyAction bin st (.binAdd item))
    have hone := binAdd_keeps bin st.1 item
    simp only [List.foldl_cons]
    refine ⟨hrest.1, hrest.2.1.trans hone.1, fun h => hrest.2.2 (hone.2 h)⟩

theorem notifyLoop_order {T : Type} (react : Behaviour T) (d : Pending T)
    (hkeep : ∀ past o ev, ∀ a ∈ react past o ev, ∃ item, a = Action.binAdd item) (k i : Nat)
    (past : List (Observer × BinEvent T)) (st : BinPacker T × List Observer)
    (hbin : (st.1.bins[d.bin]?).isSome) :
    (notifyLoop react d k i past st).2.map (fun c => c.1) = (st.2.drop i).take k ∧
    (notifyLoop react d k i past st).1.observers = st.1.observers ∧
    (∀ c ∈ (notifyLoop react d k i past st).2, ∃ b : Bin T, c.2 = d.seen b) := by
  induction k generalizing i past st with
  | zero => simp [notifyLoop]
  | succ k ih =>
    obtain ⟨b, hb⟩ := Option.isSome_iff_exists.mp hbin
    cases ho : st.2[i]? with
    | none =>
      have hlen : st.2.length ≤ i := by
        by_contra hlt
        have := List.getElem?_eq_getElem (Nat.lt_of_not_le hlt)
        rw [ho] at this
        exact Option.noConfusion this
      simp [notifyLoop, ho, List.drop_eq_nil_of_le hlen]
    | some o =>
      have hlt : i < st.2.length := (List.getElem?_eq_some_iff.mp ho).1
      have hoi : st.2[i] = o := (List.getElem?_eq_some_iff.mp ho).2
      have hdrop : st.2.drop i = o :: st.2.drop (i + 1) := by
        rw [← hoi]
        exact List.drop_eq_getElem_cons hlt
      have hf := foldl_binAdd_only d.bin (react past o (d.seen b))
        (hkeep past o (d.seen b)) st
      have hr := ih (i + 1) (past ++ [(o, d.seen b)])
        ((react past o (d.seen b)).foldl (applyAction d.bin) st) (hf.2.2 hbin)
      simp only [notifyLoop, ho, hb, List.map_cons, hdrop, List.take_succ_cons]
      refine ⟨?_, hr.2.1.trans hf.2.1, ?_⟩
      · rw [hr.1, hf.1]
      · intro c hc
        rcases List.mem_cons.mp hc with rfl | hc
        · exact ⟨b, rfl⟩
        · exact hr.2.2 c hc

/-- C15 as stated fails: listeners 1, 2, 3 are registered in that order and listener 1 takes
itself off the notifier when it is called.  `Detach` shifts the backing array the running
`range` loop of `Notify` reads, so the `Update` calls go to 1, 3, 3: listener 2 is not
called, listener 3 is called twice, and the listener list is changed to 2, 3. -/
theorem notify_skips_after_detach :
    (subscribe ⟨[]⟩ [(true, 1), (true, 2), (true, 3)]).observers = [1, 2, 3] ∧
    (ConcreteSubject.NotifyLive selfDetaching []
      (⟨100, [⟨100, 0, 0, []⟩], 1, subscribe ⟨[]⟩ [(true, 1), (true, 2), (true, 3)]⟩ :
        BinPacker String) (.created 0)).2 =
      [(1, .BinCreatedEvent ⟨100, 0, 0, []⟩), (3, .BinCreatedEvent ⟨100, 0, 0, []⟩),
        (3, .BinCreatedEvent ⟨100, 0, 0, []⟩)] ∧
    (ConcreteSubject.NotifyLive selfDetaching []
      (⟨100, [⟨100, 0, 0, []⟩], 1, subscribe ⟨[]⟩ [(true, 1), (true, 2), (true, 3)]⟩ :
        BinPacker String) (.created 0)).1.observers = ⟨[2, 3]⟩ := by
  decide

/-- C15 amended, dispatch order: after any sequence of registrations on an empty notifier,
by `Register` or by `Attach`, duplicates included, the listener list is the registered
listeners in registration order; and when no listener changes the listener list during the
dispatch (a listener may add to the bin of the event), `Notify(e)` makes exactly one
`Update(e)` call per registration, in that order, each with the event `e`, and leaves the
listener list unchanged.  Scenario of `ExampleBinPacker_Add`: with `Logger1` then `Logger2`
attached, `createBin` makes both print the `BinCreated` event of bin 0, in that order. -/
theorem notify_in_registration_order {T : Type} (react : Behaviour T)
    (hkeep : ∀ past o ev, ∀ a ∈ react past o ev, ∃ item, a = Action.binAdd item)
    (past : List (Observer × BinEvent T)) (regs : List (Bool × Observer)) (w : BinPacker T)
    (d : Pending T) (hw : w.observers = subscribe ⟨[]⟩ regs)
    (hbin : (w.bins[d.bin]?).isSome) :
    (subscribe ⟨[]⟩ regs).observers = regs.map Prod.snd ∧
    (ConcreteSubject.NotifyLive react past w d).2.map (fun c => c.1) = regs.map Prod.snd ∧
    (∀ c ∈ (ConcreteSubject.NotifyLive react past w d).2, ∃ b : Bin T, c.2 = d.seen b) ∧
    (ConcreteSubject.NotifyLive react past w d).1.observers = w.observers ∧
    (subscribe ⟨[]⟩ [(false, 1), (false, 2)]).observers = [1, 2] ∧
    printed (BinPacker.createBinLive (inert String) []
      (⟨100, [], 0, subscribe ⟨[]⟩ [(false, 1), (false, 2)]⟩ : BinPacker String)).calls =
      ["[Logger1] Bin created: ID=0", "[Logger2] Bin created: ID=0"] := by
  have hobs : (subscribe ⟨[]⟩ regs).observers = regs.map Prod.snd := by
    simp [subscribe_observers]
  have h := notifyLoop_order react d hkeep w.observers.observers.length 0 past
    (w, w.observers.observers) hbin
  refine ⟨hobs, ?_, h.2.2, h.2.1, by decide, by decide⟩
  have h1 := h.1
  simp only [List.drop_zero, List.take_length] at h1
  rw [← hobs, ← hw]
  exact h1

/-- Witness of C15 amended: listener 1 registered twice around listener 2, all of them
adding a block of size 50 to the bin of a `BlockAdded` event; the event is the `BlockAdded`
of a block of size 30 on bin 0. -/
theorem notify_in_registration_order_witness :
    (ConcreteSubject.NotifyLive binFilling []
      (⟨100, [⟨100, 30, 0, [blk 30]⟩], 1, subscribe ⟨[]⟩ [(true, 1), (false, 2), (true, 1)]⟩ :
        BinPacker String) (.added 0 (blk 30))).2.map (fun c => c.1) = [1, 2, 1] ∧
    (ConcreteSubject.NotifyLive binFilling []
      (⟨100, [⟨100, 30, 0, [blk 30]⟩], 1, subscribe ⟨[]⟩ [(true, 1), (false, 2), (true, 1)]⟩ :
        BinPacker String) (.added 0 (blk 30))).1.observers = ⟨[1, 2, 1]⟩ :=
  ⟨(notify_in_registration_order binFilling
      (by
        intro past o ev a ha
        cases ev <;> simp [binFilling] at ha
        exact ⟨blk 50, ha⟩)
      [] [(true, 1), (false, 2), (true, 1)]
      ⟨100, [⟨100, 30, 0, [blk 30]⟩], 1, subscribe ⟨[]⟩ [(true, 1), (false, 2), (true, 1)]⟩
      (.added 0 (blk 30)) rfl (by decide)).2.1,
    (notify_in_registration_order binFilling
      (by
        intro past o ev a ha
        cases ev <;> simp [binFilling] at ha
        exact ⟨blk 50, ha⟩)
      [] [(true, 1), (false, 2), (true, 1)]
      ⟨100, [⟨100, 30, 0, [blk 30]⟩], 1, subscribe ⟨[]⟩ [(true, 1), (false, 2), (true, 1)]⟩
      (.added 0 (blk 30)) rfl (by decide)).2.2.2.1.trans (by decide)⟩

end Packer
